import Mathlib

/-!
# windows_eventlog table: embedding and verified properties

Shallow embedding of `osquery/tables/system/windows/windows_eventlog.cpp`.
The Windows event log API (`EvtQuery`, `EvtNext`, `EvtRender`, `EvtSeek`,
`GetLastError`) and the osquery query context are external to that file; they
are represented by explicit data (a result set with a cursor and a script of
injected behaviours) so that every function of the table is a computable Lean
function.
-/

namespace Osquery

/-! ## Query context -/

/-- Constraint operators of the query context used by the table. -/
inductive ConstraintOperator where
  | EQUALS
  | GREATER_THAN
  | LESS_THAN
  deriving DecidableEq, Repr

/-- One constraint handed to the table: column, operator, expression text. -/
structure Constraint where
  column : String
  op : ConstraintOperator
  expr : String
  deriving DecidableEq, Repr

/-- Modelled from the spec: the ConstraintSet, a mapping from column name to a
set of (operator, value) pairs, kept here as the list of constraints in the
order they were supplied (the declaring header `osquery/core/tables.h` is not
among the sources). -/
structure QueryContext where
  constraints : List Constraint
  deriving Repr

/-- Ordered insertion into a duplicate-free sorted list: the iteration
sequence of a `std::set` after `insert`. -/
def setInsert {α : Type} [DecidableEq α] (lt : α → α → Bool) (x : α) : List α → List α
  | [] => [x]
  | y :: ys =>
    if lt x y then x :: y :: ys
    else if x = y then y :: ys
    else y :: setInsert lt x ys

/-- Lexicographic comparison of character sequences. -/
def charsLt : List Char → List Char → Bool
  | [], [] => false
  | [], _ :: _ => true
  | _ :: _, [] => false
  | a :: as, b :: bs =>
    if a.toNat < b.toNat then true
    else if a.toNat = b.toNat then charsLt as bs
    else false

/-- The `std::string` ordering `a < b`. -/
def strLt (a b : String) : Bool := charsLt a.data b.data

/-- Modelled from the spec: `constraints[column].getAll(op)`, the set of
expressions constrained on `column` with operator `op`, in `std::set` iteration
order. -/
def getAll (ctx : QueryContext) (column : String) (op : ConstraintOperator) : List String :=
  (ctx.constraints.filter (fun c => c.column = column ∧ c.op = op)).foldl
    (fun s c => setInsert strLt c.expr s) []

/-- Modelled from the spec: `hasConstraint(column, op)`, true when at least one
constraint with that operator exists on the column. -/
def hasConstraint (ctx : QueryContext) (column : String) (op : ConstraintOperator) : Bool :=
  !(getAll ctx column op).isEmpty

def kEventLogXmlPrefix : String := "<QueryList><Query Id=\"0\">"
def kEventLogXmlSuffix : String := "</Query></QueryList>"
def kMaxRowsColumn : String := "max_rows"
def kMaxRowsOperator : ConstraintOperator := .EQUALS
def kWinEvLogDateKey : String := "winevlog_datetime"
def kSentinalColumn : String := "eventid"
def kSentinalValue : String := "-1"
def kSentinalOperator : ConstraintOperator := .GREATER_THAN

/-- The C++ `isspace` class in the "C" locale. -/
def isCSpace (c : Char) : Bool :=
  c = ' ' ∨ c = '\t' ∨ c = '\n' ∨ c = '\r' ∨ c.toNat = 11 ∨ c.toNat = 12

/-- Value of a run of decimal digits. -/
def digitsValue (ds : List Char) : Nat :=
  ds.foldl (fun acc c => 10 * acc + (c.toNat - 48)) 0

/-- The standard `std::stoi`: skips leading white space, reads an optional sign
and the longest run of digits; `none` stands for the exception thrown when no
digit is found or the value does not fit a 32-bit `int`. -/
def stoi (s : String) : Option Int :=
  let cs := s.data.dropWhile isCSpace
  let neg := cs.head? = some '-'
  let body := if cs.head? = some '-' ∨ cs.head? = some '+' then cs.tail else cs
  let ds := body.takeWhile Char.isDigit
  if ds = [] then none
  else
    let v : Int := if neg then -(digitsValue ds : Int) else (digitsValue ds : Int)
    if -2147483648 ≤ v ∧ v ≤ 2147483647 then some v else none

/-- Source `getMaxRows`: the first `max_rows` equality value through
`std::stoi`, or -1 when the column is not constrained. The outer `none` is the
`std::stoi` exception. -/
def getMaxRows (ctx : QueryContext) : Option Int :=
  if hasConstraint ctx kMaxRowsColumn kMaxRowsOperator then
    stoi ((getAll ctx kMaxRowsColumn kMaxRowsOperator).headD "")
  else some (-1)

/-- Source `isSequential`: the first greater-than value on `eventid` is the
sentinel "-1". -/
def isSequential (ctx : QueryContext) : Bool :=
  if hasConstraint ctx kSentinalColumn kSentinalOperator then
    (getAll ctx kSentinalColumn kSentinalOperator).headD "" = kSentinalValue
  else false

/-! ## Native event log, rows and persistent settings -/

def ERROR_INSUFFICIENT_BUFFER : Nat := 122
def ERROR_NO_MORE_ITEMS : Nat := 259
def RPC_S_INVALID_BOUND : Nat := 1734
def EvtQueryChannelPath : Nat := 1
def EvtQueryReverseDirection : Nat := 512

/-- The fields `parseWindowsEventLogPTree` extracts from a rendered event. -/
structure WELEvent where
  osquery_time : Int
  datetime : String
  source : String
  provider_name : String
  provider_guid : String
  computer_name : String
  event_id : Int
  task_id : Int
  level : Int
  pid : Int
  tid : Int
  keywords : String
  data : String
  deriving DecidableEq, Repr

/-- An event handle delivered by `EvtNext`, described by what the calls made on
it answer: `probe` is the size-probing `EvtRender` (`none` when it returns true,
`some e` when it returns false with last error `e`), `render` the content
`EvtRender` (`some e` when it fails with `e`), `parsed` the outcome of
`parseWindowsEventLogXML` followed by `parseWindowsEventLogPTree` on the
rendered text (`none` when either stage fails). -/
structure Event where
  probe : Option Nat
  render : Option Nat
  parsed : Option WELEvent
  deriving DecidableEq, Repr

/-- A row of the table. -/
structure Row where
  time : Int
  datetime : String
  channel : String
  provider_name : String
  provider_guid : String
  computer_name : String
  eventid : Int
  task : Int
  level : Int
  pid : Int
  tid : Int
  keywords : String
  data : String
  time_range : String
  timestamp : Option String
  xpath : Option String
  max_rows : Int
  deriving DecidableEq, Repr

/-- The persistent settings domain of the osquery database; `writable = false`
makes `setDatabaseValue` fail. -/
structure Database where
  entries : List (String × String)
  writable : Bool
  deriving DecidableEq, Repr

def getDatabaseValue (db : Database) (key : String) : Option String :=
  db.entries.lookup key

def setDatabaseValue (db : Database) (key value : String) : Database :=
  if db.writable then { db with entries := (key, value) :: db.entries } else db

/-- Source `SequentialItem`. -/
structure SequentialItem where
  datetime : String
  deriving DecidableEq, Repr

/-- Source `SequentialItem::load`. -/
def SequentialItem.load (seqItem : SequentialItem) (ctx : QueryContext) (db : Database) :
    SequentialItem :=
  if hasConstraint ctx kSentinalColumn kSentinalOperator ∧
      hasConstraint ctx "channel" .EQUALS then
    let channel := (getAll ctx "channel" .EQUALS).headD ""
    let key := kWinEvLogDateKey ++ channel
    match getDatabaseValue db key with
    | some str => { seqItem with datetime := str }
    | none => seqItem
  else seqItem

/-- Source `SequentialItem::save`. -/
def SequentialItem.save (seqItem : SequentialItem) (ctx : QueryContext) (db : Database) :
    Database :=
  if hasConstraint ctx kSentinalColumn kSentinalOperator ∧
      hasConstraint ctx "channel" .EQUALS then
    let channel := (getAll ctx "channel" .EQUALS).headD ""
    let key := kWinEvLogDateKey ++ channel
    setDatabaseValue db key seqItem.datetime
  else db

/-- What one `EvtNext` call does, when the result set is told to misbehave:
`deliver k` succeeds with at most `k + 1` events, `invalidBound d` fails with
`RPC_S_INVALID_BOUND` after moving the query position `d` events forward,
`error c` fails with last error `c`. -/
inductive NextBehaviour where
  | deliver (atMost : Nat)
  | invalidBound (drift : Nat)
  | error (code : Nat)
  deriving DecidableEq, Repr

/-- The result set behind the handle returned by `EvtQuery`: its events in
query direction, the position of the next event to deliver, the behaviours of
the coming `EvtNext` calls (once the script is used up a call delivers a full
block) and the outcomes of the coming `EvtSeek` calls (`some e` fails with
`e`; once used up a call succeeds). -/
structure EvtHandle where
  events : List Event
  cursor : Nat
  script : List NextBehaviour
  seeks : List (Option Nat)
  deriving DecidableEq, Repr

/-- Outcome of one `EvtNext` call, as logged. -/
inductive NextOutcome where
  | delivered (count : Nat)
  | failed (code : Nat)
  deriving DecidableEq, Repr

/-- The native calls made by the table, in program order. -/
inductive NativeCall where
  | query (path : String) (document : String) (flags : Nat) (opened : Bool)
  | next (block : Nat) (outcome : NextOutcome)
  | seek (position : Nat) (succeeded : Bool)
  | close
  deriving DecidableEq, Repr

/-- Delivery of up to `n` events from the position of the result set; an
exhausted result set answers `ERROR_NO_MORE_ITEMS`. -/
def EvtHandle.deliverUpTo (h : EvtHandle) (n : Nat) : Except Nat (List Event) × EvtHandle :=
  let evs := (h.events.drop h.cursor).take n
  if evs = [] then (.error ERROR_NO_MORE_ITEMS, h)
  else (.ok evs, { h with cursor := h.cursor + evs.length })

/-- The native `EvtNext(h, block, ...)`. -/
def EvtNext (h : EvtHandle) (block : Nat) : Except Nat (List Event) × EvtHandle :=
  match h.script with
  | [] => h.deliverUpTo block
  | .deliver k :: rest => EvtHandle.deliverUpTo { h with script := rest } (min (k + 1) block)
  | .invalidBound d :: rest =>
    (.error RPC_S_INVALID_BOUND, { h with cursor := h.cursor + d, script := rest })
  | .error code :: rest => (.error code, { h with script := rest })

/-- The native `EvtSeek(h, position, nullptr, 0, EvtSeekRelativeToFirst)`. -/
def EvtSeek (h : EvtHandle) (position : Nat) : Option Nat × EvtHandle :=
  match h.seeks with
  | [] => (none, { h with cursor := position })
  | none :: rest => (none, { h with cursor := position, seeks := rest })
  | some e :: rest => (some e, { h with seeks := rest })

/-! ## renderQueryResults -/

/-- Source `parseWelXml`: the row built from a rendered event and the updated
sequential item; `none` is a failed status. -/
def parseWelXml (ctx : QueryContext) (ev : Event) (seqItem : SequentialItem) (maxRows : Int) :
    Option Row × SequentialItem :=
  match ev.parsed with
  | none => (none, seqItem)
  | some w =>
    (some
      { time := w.osquery_time
        datetime := w.datetime
        channel := w.source
        provider_name := w.provider_name
        provider_guid := w.provider_guid
        computer_name := w.computer_name
        eventid := w.event_id
        task := w.task_id
        level := w.level
        pid := w.pid
        tid := w.tid
        keywords := w.keywords
        data := w.data
        time_range := (getAll ctx "time_range" .EQUALS).headD ""
        timestamp := (getAll ctx "timestamp" .EQUALS).head?
        xpath := (getAll ctx "xpath" .EQUALS).head?
        max_rows := maxRows },
     { seqItem with datetime := w.datetime })

/-- The variables of `renderQueryResults` together with what it acts on: the
result set, the rows yielded so far, the thread's last error, the database and
the log of native calls. `eventCounter` is the source's `int` counter, kept
unbounded. -/
structure RenderState where
  handle : EvtHandle
  numEventsBlock : Nat
  position : Nat
  skip : Bool
  eventCounter : Int
  seqItem : SequentialItem
  lastError : Nat
  rows : List Row
  db : Database
  calls : List NativeCall
  deriving DecidableEq, Repr

/-- Last error after the size-probing `EvtRender` of an event. -/
def afterProbe (ev : Event) (lastError : Nat) : Nat :=
  match ev.probe with
  | some e => e
  | none => lastError

/-- The size probe failed with something else than `ERROR_INSUFFICIENT_BUFFER`. -/
def probeFails (ev : Event) : Bool :=
  match ev.probe with
  | some e => e ≠ ERROR_INSUFFICIENT_BUFFER
  | none => false

/-- Body of the `for` loop after the cap check, for one event (source lines
201-249). `position` is a `uint32_t`. -/
def renderEvent (ctx : QueryContext) (maxRows : Int) (ev : Event) (s : RenderState) :
    RenderState :=
  let s1 := { s with position := (s.position + 1) % 4294967296,
                     lastError := afterProbe ev s.lastError }
  if probeFails ev then s1
  else
    match ev.render with
    | some e => { s1 with lastError := e }
    | none =>
      let r := parseWelXml ctx ev s1.seqItem maxRows
      if s1.skip then
        { s1 with seqItem := r.2, skip := false, eventCounter := s1.eventCounter - 1 }
      else
        match r.1 with
        | some row => { s1 with seqItem := r.2, rows := s1.rows ++ [row] }
        | none => { s1 with seqItem := r.2 }

/-- The `for` loop over one delivered block (source lines 198-250): the cap
check increments the counter only when `maxRows > 0`, and `break` leaves the
rest of the block unprocessed. -/
def forEvents (ctx : QueryContext) (maxRows : Int) : List Event → RenderState → RenderState
  | [], s => s
  | ev :: rest, s =>
    if 0 < maxRows then
      if maxRows < s.eventCounter + 1 then { s with eventCounter := s.eventCounter + 1 }
      else forEvents ctx maxRows rest
        (renderEvent ctx maxRows ev { s with eventCounter := s.eventCounter + 1 })
    else forEvents ctx maxRows rest (renderEvent ctx maxRows ev s)

/-- One `EvtNext(queryResults, numEventsBlock, ...)` call on the state: the
returned `ret`/`events` pair (`none` is `FALSE`), the last error set on
failure, and the call logged. -/
def callEvtNext (s : RenderState) : Option (List Event) × RenderState :=
  match EvtNext s.handle s.numEventsBlock with
  | (.ok evs, h) =>
    (some evs, { s with handle := h,
                        calls := s.calls ++ [.next s.numEventsBlock (.delivered evs.length)] })
  | (.error e, h) =>
    (none, { s with handle := h, lastError := e,
                    calls := s.calls ++ [.next s.numEventsBlock (.failed e)] })

/-- One `EvtSeek(queryResults, position, ...)` call on the state. -/
def callEvtSeek (s : RenderState) : RenderState :=
  match EvtSeek s.handle s.position with
  | (none, h) => { s with handle := h, calls := s.calls ++ [.seek s.position true] }
  | (some e, h) =>
    { s with handle := h, lastError := e, calls := s.calls ++ [.seek s.position false] }

/-- The inner `while (ret != FALSE)` loop (source lines 195-254), entered with
the result of the preceding `EvtNext`. `none` means the fuel ran out. -/
def whileRet (ctx : QueryContext) (maxRows : Int) :
    Nat → Option (List Event) → RenderState → Option RenderState
  | _, none, s => some s
  | 0, some _, _ => none
  | fuel + 1, some evs, s =>
    if 0 < maxRows ∧ maxRows < s.eventCounter then some s
    else
      let s1 := forEvents ctx maxRows evs s
      let r := callEvtNext s1
      whileRet ctx maxRows fuel r.1 r.2

/-- Number of `EvtNext` calls a result set can still answer with a delivery,
plus one. -/
def EvtHandle.fuel (h : EvtHandle) : Nat :=
  (h.events.length - h.cursor) + h.script.length + 1

/-- The outer `while (numEventsBlock > 32)` loop (source lines 188-277). `none`
means the fuel ran out. -/
def whileBlock (ctx : QueryContext) (maxRows : Int) : Nat → RenderState → Option RenderState
  | 0, s => if 32 < s.numEventsBlock then none else some s
  | fuel + 1, s =>
    if 32 < s.numEventsBlock then
      if 0 < maxRows ∧ maxRows < s.eventCounter then some s
      else
        let r := callEvtNext s
        match whileRet ctx maxRows r.2.handle.fuel r.1 r.2 with
        | none => none
        | some s2 =>
          if s2.lastError = RPC_S_INVALID_BOUND then
            whileBlock ctx maxRows fuel
              (callEvtSeek { s2 with numEventsBlock := s2.numEventsBlock / 2 })
          else some s2
    else some s

/-- State between the plans of one invocation: database, last error of the
thread, rows yielded, native calls made, the invocation's sequential item, and
whether a C++ exception left the table function. -/
structure World where
  db : Database
  lastError : Nat
  rows : List Row
  calls : List NativeCall
  seqItem : SequentialItem
  threw : Bool
  deriving DecidableEq, Repr

/-- Source `renderQueryResults` on an opened result set. `none` means the fuel
of a loop ran out (it never does, see `renderQueryResults_total`). -/
def renderQueryResults (ctx : QueryContext) (queryResults : EvtHandle) (w : World) :
    Option World :=
  let sequential := isSequential ctx
  let skip := sequential && decide (w.seqItem.datetime.length ≠ 0)
  match getMaxRows ctx with
  | none => some { w with threw := true }
  | some maxRows =>
    let s0 : RenderState :=
      { handle := queryResults, numEventsBlock := 1024, position := 0, skip := skip,
        eventCounter := 0, seqItem := w.seqItem, lastError := w.lastError, rows := w.rows,
        db := w.db, calls := w.calls }
    match whileBlock ctx maxRows 1024 s0 with
    | none => none
    | some s =>
      some { w with
        db := if sequential then s.seqItem.save ctx s.db else s.db
        lastError := s.lastError
        rows := s.rows
        calls := s.calls
        seqItem := s.seqItem }

/-! ## Filter construction and planning -/

/-- Modelled from the spec: `osquery::join`, the elements separated by `sep`
(`osquery/utils/conversions/join.h` is not among the sources). -/
def join : List String → String → String
  | [], _ => ""
  | [a], _ => a
  | a :: b :: rest, sep => a ++ sep ++ join (b :: rest) sep

/-- Segments of a character sequence between occurrences of `delim`. -/
def splitChars (delim : Char) : List Char → List (List Char)
  | [] => [[]]
  | c :: cs =>
    if c = delim then [] :: splitChars delim cs
    else
      match splitChars delim cs with
      | [] => [[c]]
      | seg :: segs => (c :: seg) :: segs

/-- Modelled from the spec: `osquery::split(value, ";")`, the value "split on
`;`" into its segments (`osquery/utils/conversions/split.h` is not among the
sources). -/
def split (s : String) (delim : Char) : List String :=
  (splitChars delim s.data).map String.mk

/-- The time predicate pushed for a `time_range` value (source lines 313-324):
nothing is pushed unless the value splits into one or two segments. -/
def timeRangeFilter (datetime : String) : List String :=
  match split datetime ';' with
  | [start] => ["TimeCreated[@SystemTime&gt;='" ++ start ++ "']"]
  | [start, stop] =>
    ["TimeCreated[@SystemTime&gt;='" ++ start ++ "' and @SystemTime&lt;='" ++ stop ++ "']"]
  | _ => []

/-- The list `xfilterList` of `genXfilterFromConstraints` (source lines
297-332), given the loaded sequential item. -/
def xfilterList (ctx : QueryContext) (seqItem : SequentialItem) : List String :=
  let eids := getAll ctx "eventid" .EQUALS
  let l1 : List String :=
    if eids ≠ [] then ["(EventID=" ++ join eids ") or (EventID=" ++ ")"] else []
  let pids := getAll ctx "pid" .EQUALS
  let l2 : List String :=
    if pids ≠ [] then
      l1 ++ ["(Execution[@ProcessID=" ++ join pids "]) or (Execution[@ProcessID=" ++ "])"]
    else l1
  let times := getAll ctx "time_range" .EQUALS
  let timestamps := getAll ctx "timestamp" .EQUALS
  if times ≠ [] then l2 ++ timeRangeFilter (times.headD "")
  else if timestamps ≠ [] then
    l2 ++ ["TimeCreated[timediff(@SystemTime) &lt;= " ++ timestamps.headD "" ++ "]"]
  else if isSequential ctx ∧ seqItem.datetime.length > 0 then
    l2 ++ ["TimeCreated[@SystemTime&gt;='" ++ seqItem.datetime ++ "']"]
  else l2

/-- Source `genXfilterFromConstraints`: the filter and the sequential item
after the optional load. -/
def genXfilterFromConstraints (ctx : QueryContext) (db : Database)
    (seqItem : SequentialItem) : String × SequentialItem :=
  let seqItem1 := if isSequential ctx then seqItem.load ctx db else seqItem
  let l := xfilterList ctx seqItem1
  (if l = [] then "*" else "*[System[" ++ join l " and " ++ "]]", seqItem1)

/-- Source `shouldHandleXpath`. -/
def shouldHandleXpath (ctx : QueryContext) : Bool :=
  if (getAll ctx "xpath" .EQUALS).length > 1 then false
  else !(hasConstraint ctx "channel" .EQUALS || hasConstraint ctx "time_range" .EQUALS ||
         hasConstraint ctx "timestamp" .EQUALS)

/-- The `std::pair<std::string, std::string>` ordering. -/
def pairLt (a b : String × String) : Bool :=
  strLt a.1 b.1 || (!strLt b.1 a.1 && strLt a.2 b.2)

/-- The loop over the channel values (source lines 390-395): `welSearchQuery`
is declared before the loop and extended at each turn. -/
def channelPlans : List String → String → String → List (String × String) →
    List (String × String)
  | [], _, _, xpath_set => xpath_set
  | channel :: rest, xfilter, welSearchQuery, xpath_set =>
    let q1 := welSearchQuery ++ ("<Select Path=\"" ++ channel ++ "\">")
    let q2 := q1 ++ xfilter
    let q3 := q2 ++ ("</Select>" ++ kEventLogXmlSuffix)
    channelPlans rest xfilter q3 (setInsert pairLt (channel, q3) xpath_set)

/-- What the table needs from outside its source file: the Boost XML reader on
an xpath value (`none` when `read_xml` throws, otherwise the value found at
`QueryList.Query.Select.<xmlattr>.Path`, empty when absent) and the native
`EvtQuery` (an error code when it returns null). -/
structure Env where
  readXmlPath : String → Option String
  evtQuery : String → String → Nat → Except Nat EvtHandle

/-- Outcome of the planning part of `genWindowsEventLog` (source lines
353-401): `none` when the function returns before the query loop. -/
def planQueries (env : Env) (ctx : QueryContext) (w : World) :
    Option (List (String × String) × SequentialItem) :=
  let hasXpath := hasConstraint ctx "xpath" .EQUALS
  if hasXpath && !shouldHandleXpath ctx then none
  else if hasXpath then
    let xpath := (getAll ctx "xpath" .EQUALS).headD ""
    match env.readXmlPath xpath with
    | none => none
    | some channel =>
      if channel ≠ "" then some ([(channel, xpath)], w.seqItem) else some ([], w.seqItem)
  else if hasConstraint ctx "channel" .EQUALS then
    let channels := getAll ctx "channel" .EQUALS
    let r := genXfilterFromConstraints ctx w.db w.seqItem
    some (channelPlans channels r.1 kEventLogXmlPrefix [], r.2)
  else none

/-- The loop over `xpath_set` (source lines 404-420). -/
def runPlans (env : Env) (ctx : QueryContext) (sequential : Bool) :
    List (String × String) → World → Option World
  | [], w => some w
  | path :: rest, w =>
    let flags :=
      if sequential then EvtQueryChannelPath
      else EvtQueryChannelPath ||| EvtQueryReverseDirection
    match env.evtQuery path.1 path.2 flags with
    | .error e =>
      some { w with lastError := e, calls := w.calls ++ [.query path.1 path.2 flags false] }
    | .ok queryResults =>
      match renderQueryResults ctx queryResults
          { w with calls := w.calls ++ [.query path.1 path.2 flags true] } with
      | none => none
      | some w1 =>
        if w1.threw then some w1
        else runPlans env ctx sequential rest { w1 with calls := w1.calls ++ [.close] }

/-- Source `genWindowsEventLog`, started with a fresh sequential item. -/
def genWindowsEventLog (env : Env) (ctx : QueryContext) (w : World) : Option World :=
  let w0 := { w with seqItem := { datetime := "" } }
  match planQueries env ctx w0 with
  | none => some w0
  | some (xpath_set, seqItem) =>
    runPlans env ctx (isSequential ctx) xpath_set { w0 with seqItem := seqItem }

/-! ## Vocabulary of the statements -/

/-- Cap invariant of one plan: the rows yielded since the plan began are bounded
by the event counter and by the cap. -/
def CapInv (base : Nat) (N : Int) (s : RenderState) : Prop :=
  (s.rows.length : Int) ≤ base + s.eventCounter ∧ (s.rows.length : Int) ≤ base + N

/-- Number of native queries one invocation can open: one in xpath mode, one per
channel value in channel mode. -/
def planBound (ctx : QueryContext) : Nat :=
  if hasConstraint ctx "xpath" .EQUALS then 1 else (getAll ctx "channel" .EQUALS).length

/-- The constraint set is a validation failure: an xpath together with a
channel, time_range or timestamp equality constraint; more than one xpath; an
xpath the XML reader rejects; or neither a channel nor an xpath. -/
def ValidationFailure (env : Env) (ctx : QueryContext) : Prop :=
  (hasConstraint ctx "xpath" .EQUALS = true ∧
      (hasConstraint ctx "channel" .EQUALS = true ∨
        hasConstraint ctx "time_range" .EQUALS = true ∨
        hasConstraint ctx "timestamp" .EQUALS = true)) ∨
    1 < (getAll ctx "xpath" .EQUALS).length ∨
    (hasConstraint ctx "xpath" .EQUALS = true ∧
      env.readXmlPath ((getAll ctx "xpath" .EQUALS).headD "") = none) ∨
    (hasConstraint ctx "channel" .EQUALS = false ∧ hasConstraint ctx "xpath" .EQUALS = false)

/-- The loop state in which `renderQueryResults` enters its loops (source
lines 177-187). -/
def scanStart (ctx : QueryContext) (q : EvtHandle) (w : World) : RenderState :=
  { handle := q, numEventsBlock := 1024, position := 0,
    skip := isSequential ctx && decide (w.seqItem.datetime.length ≠ 0),
    eventCounter := 0, seqItem := w.seqItem, lastError := w.lastError, rows := w.rows,
    db := w.db, calls := w.calls }

/-- The watermark stored for the channel of a sequential query, empty when
none is stored. -/
def storedWatermark (ctx : QueryContext) (db : Database) : String :=
  (getDatabaseValue db (kWinEvLogDateKey ++ (getAll ctx "channel" .EQUALS).headD "")).getD ""

/-- The text `needle` occurs in `hay`. -/
def contains (hay needle : String) : Prop := needle.data <:+: hay.data

/-- The text has no `;`. -/
def noSemicolon (s : String) : Prop := ';' ∉ s.data

/-- The elements of a list, each followed by the separator. -/
def joinLead (l : List String) (sep : String) : String :=
  l.foldr (fun a acc => a ++ sep ++ acc) ""

/-- The event id and process id predicates of `xfilterList` (source lines
297-308). -/
def idFilters (ctx : QueryContext) : List String :=
  (if getAll ctx "eventid" .EQUALS ≠ [] then
      ["(EventID=" ++ join (getAll ctx "eventid" .EQUALS) ") or (EventID=" ++ ")"]
    else []) ++
  (if getAll ctx "pid" .EQUALS ≠ [] then
      ["(Execution[@ProcessID=" ++
        join (getAll ctx "pid" .EQUALS) "]) or (Execution[@ProcessID=" ++ "])"]
    else [])

/-- The log entry is an `EvtQuery` call. -/
def NativeCall.isQuery : NativeCall → Bool
  | .query _ _ _ _ => true
  | _ => false

/-- The query document of the claim for one channel and a filter. -/
def channelDocument (channel xfilter : String) : String :=
  kEventLogXmlPrefix ++ ("<Select Path=\"" ++ channel ++ "\">") ++ xfilter ++
    ("</Select>" ++ kEventLogXmlSuffix)

/-- The block sizes of the `EvtNext` calls of a log, in call order. -/
def fetchSizes (calls : List NativeCall) : List Nat :=
  calls.filterMap (fun c =>
    match c with
    | .next b _ => some b
    | _ => none)

/-- The script entry makes `EvtNext` fail with the invalid-bound condition. -/
def NextBehaviour.isInvalidBound : NextBehaviour → Bool
  | .invalidBound _ => true
  | .error c => c = RPC_S_INVALID_BOUND
  | .deliver _ => false

/-- The block sizes from `32 * 2^n` down to 64, each half of the one before. -/
def halvings : Nat → List Nat
  | 0 => []
  | n + 1 => 32 * 2 ^ (n + 1) :: halvings n

/-- Block-size invariant of the fetch loop: the block size is one of 1024, 512,
256, 128, 64, 32; the calls made since the log was `c0` fetched with sizes among
1024, 512, 256, 128, 64, none smaller than the current block size, and never
with a size larger than an earlier one. -/
def BlockInv (c0 : List NativeCall) (s : RenderState) : Prop :=
  s.numEventsBlock ∈ [1024, 512, 256, 128, 64, 32] ∧
    ∃ t, s.calls = c0 ++ t ∧
      (∀ b ∈ fetchSizes t, b ∈ [1024, 512, 256, 128, 64] ∧ s.numEventsBlock ≤ b) ∧
      (fetchSizes t).Pairwise (fun a b => b ≤ a)

/-- Some occurrence of `tag` in the text is followed by at least one more
character. -/
def closedBefore (tag : List Char) : List Char → Bool
  | [] => false
  | c :: cs =>
    (tag.isPrefixOf (c :: cs) && decide (tag.length < (c :: cs).length)) || closedBefore tag cs

/-- The query document has text after a closing `</Query></QueryList>`. -/
def textAfterClose (doc : String) : Bool :=
  closedBefore kEventLogXmlSuffix.data doc.data

/-- The query document ends with its only closing `</Query></QueryList>`. -/
def wellClosed (doc : String) : Bool :=
  kEventLogXmlSuffix.data.isSuffixOf doc.data && !textAfterClose doc

/-- An event that renders (size probe answered with `ERROR_INSUFFICIENT_BUFFER`)
and parses, with the given `datetime`. -/
def sampleEvent (dt : String) : Event :=
  { probe := some 122
    render := none
    parsed := some
      { osquery_time := 0, datetime := dt, source := "Application", provider_name := "",
        provider_guid := "", computer_name := "", event_id := 1, task_id := 0, level := 4,
        pid := 0, tid := 0, keywords := "", data := "" } }

/-- A thread with no rows yielded, an empty writable database and no call made. -/
def emptyWorld : World :=
  { db := { entries := [], writable := true }, lastError := 0, rows := [], calls := [],
    seqItem := { datetime := "" }, threw := false }

/-- A freshly opened result set without injected behaviour. -/
def freshHandle (evs : List Event) : EvtHandle :=
  { events := evs, cursor := 0, script := [], seeks := [] }

/-- A log store where every query opens a result set holding `evs`, and whose
XML reader rejects every xpath. -/
def openStore (evs : List Event) : Env :=
  { readXmlPath := fun _ => none
    evtQuery := fun _ _ _ => .ok (freshHandle evs) }

/-- Two channels and `max_rows = 1`. -/
def ctxTwoChannelsCap1 : QueryContext :=
  ⟨[⟨"channel", .EQUALS, "Application"⟩, ⟨"channel", .EQUALS, "System"⟩,
    ⟨"max_rows", .EQUALS, "1"⟩]⟩

/-- One channel and `max_rows = 1`. -/
def ctxOneChannelCap1 : QueryContext :=
  ⟨[⟨"channel", .EQUALS, "Application"⟩, ⟨"max_rows", .EQUALS, "1"⟩]⟩

/-- Twenty events that render and parse. -/
def twentyEvents : List Event := List.replicate 20 (sampleEvent "2024-01-01T00:00:00Z")

/-- An xpath together with a channel constraint. -/
def ctxXpathAndChannel : QueryContext :=
  ⟨[⟨"xpath", .EQUALS,
      "<QueryList><Query Id=\"0\"><Select Path=\"System\">*</Select></Query></QueryList>"⟩,
    ⟨"channel", .EQUALS, "System"⟩]⟩

/-- Sequential mode on one channel: the sentinel `eventid > -1`, no cap. -/
def ctxSequential : QueryContext :=
  ⟨[⟨"channel", .EQUALS, "Application"⟩, ⟨"eventid", .GREATER_THAN, "-1"⟩]⟩

/-- A thread whose database holds the watermark `W` for channel Application. -/
def worldWithWatermark (W : String) : World :=
  { emptyWorld with
    db := { entries := [("winevlog_datetimeApplication", W)], writable := true } }

/-- A thread inside a resumed invocation: the watermark `W` has been loaded
into the sequential item. -/
def resumedWorld (W : String) : World :=
  { worldWithWatermark W with seqItem := { datetime := W } }

/-- Two events newer than the watermark "2024-01-01T00:00:00Z". -/
def eventsAfterWatermark : List Event :=
  [sampleEvent "2024-01-02T00:00:00Z", sampleEvent "2024-01-03T00:00:00Z"]

/-- Two channel values and nothing else. -/
def ctxTwoChannels : QueryContext :=
  ⟨[⟨"channel", .EQUALS, "Application"⟩, ⟨"channel", .EQUALS, "System"⟩]⟩

/-- A log store where the channel `bad` cannot be opened (`EvtQuery` fails with
`ERROR_EVT_CHANNEL_NOT_FOUND`) and every other query opens a result set holding
`evs`. -/
def storeFailingOn (bad : String) (evs : List Event) : Env :=
  { readXmlPath := fun _ => none
    evtQuery := fun path _ _ => if path = bad then .error 15007 else .ok (freshHandle evs) }

/-- A channel with a closed `time_range`, as in the spec's example. -/
def ctxTimeRangePair : QueryContext :=
  ⟨[⟨"channel", .EQUALS, "Application"⟩,
    ⟨"time_range", .EQUALS, "2024-01-01T00:00:00;2024-01-02T00:00:00"⟩]⟩

/-- A channel with a `time_range` that has a start only. -/
def ctxTimeRangeStart : QueryContext :=
  ⟨[⟨"channel", .EQUALS, "Application"⟩, ⟨"time_range", .EQUALS, "2024-01-01T00:00:00"⟩]⟩

/-- A result set of three events that answers the first five fetches with the
invalid-bound condition. -/
def handleAlwaysInvalidBound : EvtHandle :=
  { events := [sampleEvent "1", sampleEvent "2", sampleEvent "3"], cursor := 0,
    script := List.replicate 5 (.invalidBound 0), seeks := [] }

/-- A result set of three events whose first fetch fails with the invalid-bound
condition after the position moved two events forward. -/
def handleOneInvalidBound : EvtHandle :=
  { events := [sampleEvent "1", sampleEvent "2", sampleEvent "3"], cursor := 0,
    script := [.invalidBound 2], seeks := [] }

/-- One channel and no other constraint. -/
def ctxOneChannel : QueryContext := ⟨[⟨"channel", .EQUALS, "Application"⟩]⟩

/-- Sequential mode on one channel with `max_rows = 2`. -/
def ctxSequentialCap2 : QueryContext :=
  ⟨[⟨"channel", .EQUALS, "Application"⟩, ⟨"eventid", .GREATER_THAN, "-1"⟩,
    ⟨"max_rows", .EQUALS, "2"⟩]⟩

/-- The boundary event of the watermark "2024-01-01T00:00:00Z" followed by
three newer events. -/
def eventsFromWatermark : List Event :=
  [sampleEvent "2024-01-01T00:00:00Z", sampleEvent "2024-01-02T00:00:00Z",
    sampleEvent "2024-01-03T00:00:00Z", sampleEvent "2024-01-04T00:00:00Z"]

/-- A channel with a `time_range` of three segments. -/
def ctxTimeRangeThree : QueryContext :=
  ⟨[⟨"channel", .EQUALS, "Application"⟩,
    ⟨"time_range", .EQUALS, "2024-01-01T00:00:00;2024-01-02T00:00:00;2024-01-03T00:00:00"⟩]⟩


/-- One channel, the sentinel `eventid > -1` and a second greater-than value on
eventid that precedes it in string order. -/
def ctxSentinelSecond : QueryContext :=
  ⟨[⟨"channel", .EQUALS, "Application"⟩, ⟨"eventid", .GREATER_THAN, "-1"⟩,
    ⟨"eventid", .GREATER_THAN, "!"⟩]⟩

/-- A channel, the single-segment `time_range` of the spec's example, and an
eventid equality value that carries filter text of its own. -/
def ctxTimeRangeInjected : QueryContext :=
  ⟨[⟨"channel", .EQUALS, "Application"⟩, ⟨"time_range", .EQUALS, "2024-01-01T00:00:00"⟩,
    ⟨"eventid", .EQUALS, "1) or (TimeCreated[@SystemTime&lt;='2000-01-01T00:00:00']"⟩]⟩

/-- A log store that opens a result set holding `evs` for a document that ends
with its only closing `</Query></QueryList>`, and refuses every other document
as an invalid query. -/
def strictStore (evs : List Event) : Env :=
  { readXmlPath := fun _ => none
    evtQuery := fun _ doc _ =>
      if wellClosed doc then .ok (freshHandle evs) else .error 15001 }

/-- Sequential mode on one channel with one eventid equality value. -/
def ctxSequentialEventId : QueryContext :=
  ⟨[⟨"channel", .EQUALS, "Application"⟩, ⟨"eventid", .GREATER_THAN, "-1"⟩,
    ⟨"eventid", .EQUALS, "4624"⟩]⟩

theorem renderEvent_handle (ctx : QueryContext) (m : Int) (ev : Event) (s : RenderState) :
    (renderEvent ctx m ev s).handle = s.handle := by
  unfold renderEvent
  dsimp only
  repeat' split
  all_goals rfl

theorem renderEvent_block (ctx : QueryContext) (m : Int) (ev : Event) (s : RenderState) :
    (renderEvent ctx m ev s).numEventsBlock = s.numEventsBlock := by
  unfold renderEvent
  dsimp only
  repeat' split
  all_goals rfl

theorem renderEvent_calls (ctx : QueryContext) (m : Int) (ev : Event) (s : RenderState) :
    (renderEvent ctx m ev s).calls = s.calls := by
  unfold renderEvent
  dsimp only
  repeat' split
  all_goals rfl

theorem forEvents_handle (ctx : QueryContext) (m : Int) (evs : List Event) :
    ∀ s : RenderState, (forEvents ctx m evs s).handle = s.handle := by
  induction evs with
  | nil => intro s; rfl
  | cons ev rest ih =>
    intro s
    unfold forEvents
    repeat' split
    all_goals simp [ih, renderEvent_handle]

theorem forEvents_block (ctx : QueryContext) (m : Int) (evs : List Event) :
    ∀ s : RenderState, (forEvents ctx m evs s).numEventsBlock = s.numEventsBlock := by
  induction evs with
  | nil => intro s; rfl
  | cons ev rest ih =>
    intro s
    unfold forEvents
    repeat' split
    all_goals simp [ih, renderEvent_block]

theorem forEvents_calls (ctx : QueryContext) (m : Int) (evs : List Event) :
    ∀ s : RenderState, (forEvents ctx m evs s).calls = s.calls := by
  induction evs with
  | nil => intro s; rfl
  | cons ev rest ih =>
    intro s
    unfold forEvents
    repeat' split
    all_goals simp [ih, renderEvent_calls]

theorem callEvtNext_block (s : RenderState) :
    (callEvtNext s).2.numEventsBlock = s.numEventsBlock := by
  unfold callEvtNext
  split <;> rfl

theorem callEvtNext_rows (s : RenderState) : (callEvtNext s).2.rows = s.rows := by
  unfold callEvtNext
  split <;> rfl

theorem callEvtNext_counter (s : RenderState) :
    (callEvtNext s).2.eventCounter = s.eventCounter := by
  unfold callEvtNext
  split <;> rfl

theorem callEvtNext_handle (s : RenderState) :
    (callEvtNext s).2.handle = (EvtNext s.handle s.numEventsBlock).2 := by
  unfold callEvtNext
  split <;> simp_all

theorem callEvtNext_isSome (s : RenderState) :
    (callEvtNext s).1.isSome = true ↔ ∃ evs, (EvtNext s.handle s.numEventsBlock).1 = .ok evs := by
  unfold callEvtNext
  split <;> simp_all

theorem callEvtSeek_rows (s : RenderState) : (callEvtSeek s).rows = s.rows := by
  unfold callEvtSeek
  split <;> rfl

theorem callEvtSeek_counter (s : RenderState) :
    (callEvtSeek s).eventCounter = s.eventCounter := by
  unfold callEvtSeek
  split <;> rfl

theorem callEvtSeek_block (s : RenderState) :
    (callEvtSeek s).numEventsBlock = s.numEventsBlock := by
  unfold callEvtSeek
  split <;> rfl

/-- Invariant rule of the inner loop: a property kept by the `for` loop and by
`EvtNext` holds when the loop ends. -/
theorem whileRet_induct (ctx : QueryContext) (m : Int) (P : RenderState → Prop)
    (hfor : ∀ evs s, P s → P (forEvents ctx m evs s))
    (hnext : ∀ s, P s → P (callEvtNext s).2) :
    ∀ (fuel : Nat) (ret : Option (List Event)) (s s' : RenderState),
      whileRet ctx m fuel ret s = some s' → P s → P s' := by
  intro fuel
  induction fuel with
  | zero =>
    intro ret s s' h hp
    cases ret with
    | none => simp [whileRet] at h; exact h ▸ hp
    | some evs => simp [whileRet] at h
  | succ n ih =>
    intro ret s s' h hp
    cases ret with
    | none => simp [whileRet] at h; exact h ▸ hp
    | some evs =>
      simp only [whileRet] at h
      split at h
      · simp at h; exact h ▸ hp
      · exact ih _ _ _ h (hnext _ (hfor _ _ hp))

/-- Invariant rule of the outer loop. -/
theorem whileBlock_induct (ctx : QueryContext) (m : Int) (P : RenderState → Prop)
    (hfor : ∀ evs s, P s → P (forEvents ctx m evs s))
    (hnext : ∀ s, P s → P (callEvtNext s).2)
    (hseek : ∀ s, P s → P (callEvtSeek { s with numEventsBlock := s.numEventsBlock / 2 })) :
    ∀ (fuel : Nat) (s s' : RenderState),
      whileBlock ctx m fuel s = some s' → P s → P s' := by
  intro fuel
  induction fuel with
  | zero =>
    intro s s' h hp
    simp only [whileBlock] at h
    split at h
    · simp at h
    · simp at h; exact h ▸ hp
  | succ n ih =>
    intro s s' h hp
    simp only [whileBlock] at h
    split at h
    · split at h
      · simp at h; exact h ▸ hp
      · split at h
        · simp at h
        · next s2 hw =>
          have hp2 : P s2 := whileRet_induct ctx m P hfor hnext _ _ _ _ hw (hnext _ hp)
          split at h
          · exact ih _ _ h (hseek _ hp2)
          · simp at h; exact h ▸ hp2
    · simp at h; exact h ▸ hp

/-- A successful delivery hands over the next events and moves the position
past them. -/
theorem deliverUpTo_ok (h : EvtHandle) (n : Nat) (evs : List Event)
    (hr : (h.deliverUpTo n).1 = .ok evs) :
    evs = (h.events.drop h.cursor).take n ∧ evs ≠ [] ∧
      (h.deliverUpTo n).2 = { h with cursor := h.cursor + evs.length } := by
  unfold EvtHandle.deliverUpTo at hr ⊢
  by_cases he : List.take n (List.drop h.cursor h.events) = []
  · simp [he] at hr
  · simp only [he, if_false] at hr ⊢
    have hev : List.take n (List.drop h.cursor h.events) = evs := by
      simpa using hr
    subst hev
    exact ⟨rfl, he, rfl⟩

theorem deliverUpTo_fuel (h : EvtHandle) (n : Nat) (evs : List Event)
    (hr : (h.deliverUpTo n).1 = .ok evs) :
    (h.deliverUpTo n).2.fuel < h.fuel := by
  obtain ⟨h1, h2, h3⟩ := deliverUpTo_ok h n evs hr
  rw [h3]
  have hpos : 0 < evs.length := List.length_pos.mpr h2
  have hle : evs.length ≤ h.events.length - h.cursor := by
    rw [h1]; simp [List.length_take, List.length_drop]
  simp only [EvtHandle.fuel]
  omega

/-- A successful `EvtNext` uses up a script entry or at least one event. -/
theorem EvtNext_fuel (h : EvtHandle) (b : Nat) (evs : List Event)
    (hr : (EvtNext h b).1 = .ok evs) : (EvtNext h b).2.fuel < h.fuel := by
  unfold EvtNext at hr ⊢
  split at hr
  · exact deliverUpTo_fuel h b evs hr
  · next k rest hs =>
    have := deliverUpTo_fuel _ _ evs hr
    simp only [EvtHandle.fuel, hs, List.length_cons] at this ⊢
    omega
  · simp at hr
  · simp at hr

/-- The inner loop ends within the fuel computed from the result set. -/
theorem whileRet_total (ctx : QueryContext) (m : Int) :
    ∀ (fuel : Nat) (ret : Option (List Event)) (s : RenderState),
      (ret.isSome = true → s.handle.fuel ≤ fuel) →
      ∃ s', whileRet ctx m fuel ret s = some s' := by
  intro fuel
  induction fuel with
  | zero =>
    intro ret s h
    cases ret with
    | none => exact ⟨s, by simp [whileRet]⟩
    | some evs =>
      have := h rfl
      simp [EvtHandle.fuel] at this
  | succ n ih =>
    intro ret s h
    cases ret with
    | none => exact ⟨s, by simp [whileRet]⟩
    | some evs =>
      simp only [whileRet]
      split
      · exact ⟨s, rfl⟩
      · apply ih
        intro hsome
        obtain ⟨evs2, he⟩ := (callEvtNext_isSome _).mp hsome
        have hf := EvtNext_fuel _ _ _ he
        rw [callEvtNext_handle]
        simp only [forEvents_handle, forEvents_block] at hf ⊢
        have := h rfl
        omega

theorem whileRet_block (ctx : QueryContext) (m : Int) (fuel : Nat)
    (ret : Option (List Event)) (s s' : RenderState)
    (h : whileRet ctx m fuel ret s = some s') : s'.numEventsBlock = s.numEventsBlock :=
  whileRet_induct ctx m (fun t => t.numEventsBlock = s.numEventsBlock)
    (fun evs t ht => by
      show (forEvents ctx m evs t).numEventsBlock = s.numEventsBlock
      rw [forEvents_block]; exact ht)
    (fun t ht => by
      show (callEvtNext t).2.numEventsBlock = s.numEventsBlock
      rw [callEvtNext_block]; exact ht) fuel ret s s' h rfl

/-- The outer loop ends within `numEventsBlock` turns. -/
theorem whileBlock_total (ctx : QueryContext) (m : Int) :
    ∀ (fuel : Nat) (s : RenderState), s.numEventsBlock ≤ fuel →
      ∃ s', whileBlock ctx m fuel s = some s' := by
  intro fuel
  induction fuel with
  | zero =>
    intro s h
    refine ⟨s, ?_⟩
    simp only [whileBlock]
    rw [if_neg (by omega)]
  | succ n ih =>
    intro s h
    simp only [whileBlock]
    split
    · split
      · exact ⟨s, rfl⟩
      · obtain ⟨s2, hs2⟩ := whileRet_total ctx m (callEvtNext s).2.handle.fuel
          (callEvtNext s).1 (callEvtNext s).2 (fun _ => le_refl _)
        rw [hs2]
        dsimp only
        split
        · apply ih
          rw [callEvtSeek_block]
          have := whileRet_block ctx m _ _ _ _ hs2
          rw [callEvtNext_block] at this
          dsimp only
          omega
        · exact ⟨s2, rfl⟩
    · exact ⟨s, rfl⟩

/-- The model of `renderQueryResults` never runs out of fuel. -/
theorem renderQueryResults_total (ctx : QueryContext) (q : EvtHandle) (w : World) :
    ∃ w', renderQueryResults ctx q w = some w' := by
  unfold renderQueryResults
  dsimp only
  split
  · exact ⟨_, rfl⟩
  · next maxRows _ =>
    obtain ⟨s, hs⟩ := whileBlock_total ctx maxRows 1024
      { handle := q, numEventsBlock := 1024, position := 0,
        skip := isSequential ctx && decide (w.seqItem.datetime.length ≠ 0),
        eventCounter := 0, seqItem := w.seqItem, lastError := w.lastError, rows := w.rows,
        db := w.db, calls := w.calls } (le_refl _)
    rw [hs]
    exact ⟨_, rfl⟩

/-- The loop over the plans never runs out of fuel. -/
theorem runPlans_total (env : Env) (ctx : QueryContext) (sequential : Bool) :
    ∀ (plans : List (String × String)) (w : World),
      ∃ w', runPlans env ctx sequential plans w = some w' := by
  intro plans
  induction plans with
  | nil => intro w; exact ⟨w, rfl⟩
  | cons path rest ih =>
    intro w
    simp only [runPlans]
    split
    · exact ⟨_, rfl⟩
    · next q _ =>
      obtain ⟨w1, hw1⟩ := renderQueryResults_total ctx q
        { w with calls := w.calls ++ [.query path.1 path.2
          (if sequential = true then EvtQueryChannelPath
            else EvtQueryChannelPath ||| EvtQueryReverseDirection) true] }
      rw [hw1]
      dsimp only
      split
      · exact ⟨_, rfl⟩
      · exact ih _

/-- The model of `genWindowsEventLog` always returns. -/
theorem genWindowsEventLog_total (env : Env) (ctx : QueryContext) (w : World) :
    ∃ w', genWindowsEventLog env ctx w = some w' := by
  unfold genWindowsEventLog
  dsimp only
  split
  · exact ⟨_, rfl⟩
  · exact runPlans_total env ctx _ _ _


/-! ## C1: the row cap -/

theorem renderEvent_cap (ctx : QueryContext) (m : Int) (ev : Event) (s : RenderState) :
    ((renderEvent ctx m ev s).rows.length : Int) - (renderEvent ctx m ev s).eventCounter
        ≤ s.rows.length - s.eventCounter + 1 ∧
      (renderEvent ctx m ev s).rows.length ≤ s.rows.length + 1 := by
  unfold renderEvent
  dsimp only
  repeat' split
  all_goals simp
  all_goals omega

theorem forEvents_cap (ctx : QueryContext) (base : Nat) (N : Int) (hN : 0 < N)
    (evs : List Event) :
    ∀ s : RenderState, CapInv base N s → CapInv base N (forEvents ctx N evs s) := by
  induction evs with
  | nil => intro s h; exact h
  | cons ev rest ih =>
    intro s h
    unfold forEvents
    rw [if_pos hN]
    split
    · exact ⟨by have := h.1; dsimp only; omega, h.2⟩
    · next hlt =>
      apply ih
      have hc := renderEvent_cap ctx N ev { s with eventCounter := s.eventCounter + 1 }
      dsimp only at hc
      have h1 := h.1
      have h2 := h.2
      constructor
      · omega
      · have : ((renderEvent ctx N ev { s with eventCounter := s.eventCounter + 1 }).rows.length
            : Int) ≤ (s.rows.length : Int) + 1 := by exact_mod_cast hc.2
        omega

/-- One plan yields at most `N` rows when `max_rows = N > 0`, whatever the
result set does. -/
theorem renderQueryResults_cap (ctx : QueryContext) (q : EvtHandle) (w w' : World) (N : Int)
    (hmax : getMaxRows ctx = some N) (hN : 0 < N)
    (h : renderQueryResults ctx q w = some w') :
    (w'.rows.length : Int) ≤ w.rows.length + N ∧ w'.threw = w.threw := by
  unfold renderQueryResults at h
  simp only [hmax] at h
  split at h
  · simp at h
  · next s hs =>
    have hinv : CapInv w.rows.length N s := by
      refine whileBlock_induct ctx N (CapInv w.rows.length N)
        (fun evs t ht => forEvents_cap ctx _ N hN evs t ht)
        (fun t ht => ?_) (fun t ht => ?_) _ _ _ hs ?_
      · unfold CapInv; rw [callEvtNext_rows, callEvtNext_counter]; exact ht
      · unfold CapInv; rw [callEvtSeek_rows, callEvtSeek_counter]; exact ht
      · unfold CapInv; dsimp only; omega
    simp only [Option.some.injEq] at h
    subst h
    exact ⟨hinv.2, rfl⟩

theorem runPlans_cap (env : Env) (ctx : QueryContext) (sequential : Bool) (N : Int)
    (hmax : getMaxRows ctx = some N) (hN : 0 < N) :
    ∀ (plans : List (String × String)) (w w' : World),
      runPlans env ctx sequential plans w = some w' →
      (w'.rows.length : Int) ≤ w.rows.length + N * plans.length := by
  intro plans
  induction plans with
  | nil =>
    intro w w' h
    simp only [runPlans, Option.some.injEq] at h
    subst h
    simp
  | cons path rest ih =>
    intro w w' h
    simp only [runPlans] at h
    split at h
    · simp only [Option.some.injEq] at h
      subst h
      dsimp only
      have : (0 : Int) ≤ N * ((path :: rest).length : Int) := by positivity
      omega
    · split at h
      · simp at h
      · next w1 hw1 =>
        have hc := renderQueryResults_cap ctx _ _ w1 N hmax hN hw1
        dsimp only at hc
        have hlen : (((path :: rest).length : Nat) : Int) = (rest.length : Int) + 1 := by
          simp
        rw [hlen, mul_add, mul_one]
        split at h
        · simp only [Option.some.injEq] at h
          subst h
          have : (0 : Int) ≤ N * (rest.length : Int) := by positivity
          omega
        · have := ih _ _ h
          dsimp only at this
          omega

theorem setInsert_length {α : Type} [DecidableEq α] (lt : α → α → Bool) (x : α) :
    ∀ l : List α, (setInsert lt x l).length ≤ l.length + 1 := by
  intro l
  induction l with
  | nil => simp [setInsert]
  | cons y ys ih =>
    simp only [setInsert]
    split
    · simp
    · split
      · simp
      · simp only [List.length_cons]; omega

theorem channelPlans_length :
    ∀ (channels : List String) (xfilter doc : String) (acc : List (String × String)),
      (channelPlans channels xfilter doc acc).length ≤ acc.length + channels.length := by
  intro channels
  induction channels with
  | nil => intro _ _ acc; simp [channelPlans]
  | cons c rest ih =>
    intro xfilter doc acc
    simp only [channelPlans]
    refine le_trans (ih _ _ _) ?_
    have := setInsert_length pairLt
      (c, doc ++ ("<Select Path=\"" ++ c ++ "\">") ++ xfilter ++
        ("</Select>" ++ kEventLogXmlSuffix)) acc
    simp only [List.length_cons]
    omega

theorem planQueries_length (env : Env) (ctx : QueryContext) (w : World)
    (plans : List (String × String)) (seqItem : SequentialItem)
    (h : planQueries env ctx w = some (plans, seqItem)) : plans.length ≤ planBound ctx := by
  unfold planQueries at h
  unfold planBound
  dsimp only at h
  split at h
  · simp at h
  · split at h
    · next hx =>
      rw [if_pos hx]
      split at h
      · simp at h
      · split at h <;> simp only [Option.some.injEq, Prod.mk.injEq] at h <;> rw [← h.1] <;> simp
    · next hx =>
      rw [if_neg hx]
      split at h
      · simp only [Option.some.injEq, Prod.mk.injEq] at h
        rw [← h.1]
        have := channelPlans_length (getAll ctx "channel" .EQUALS)
          (genXfilterFromConstraints ctx w.db w.seqItem).1 kEventLogXmlPrefix []
        simpa using this
      · simp at h

/-- With `max_rows = N > 0`, every native query opened by one invocation of
`genWindowsEventLog` contributes at most `N` rows, whatever the store opens: the
invocation returns, and the rows it emits number at most `N` times the number
of queries it can open. -/
theorem rows_bounded_per_query (env : Env) (ctx : QueryContext) (w : World) (N : Int)
    (hmax : getMaxRows ctx = some N) (hN : 0 < N) :
    ∃ w', genWindowsEventLog env ctx w = some w' ∧
      (w'.rows.length : Int) ≤ w.rows.length + N * planBound ctx := by
  obtain ⟨w', hw'⟩ := genWindowsEventLog_total env ctx w
  refine ⟨w', hw', ?_⟩
  unfold genWindowsEventLog at hw'
  dsimp only at hw'
  split at hw'
  · simp only [Option.some.injEq] at hw'
    subst hw'
    dsimp only
    have : (0 : Int) ≤ N * (planBound ctx : Int) := by positivity
    omega
  · next plans seqItem hp =>
    have h1 := runPlans_cap env ctx _ N hmax hN _ _ _ hw'
    have h2 := planQueries_length env ctx _ plans seqItem hp
    dsimp only at h1
    have h3 : N * (plans.length : Int) ≤ N * (planBound ctx : Int) := by
      apply mul_le_mul_of_nonneg_left _ (le_of_lt hN)
      exact_mod_cast h2
    omega

/-- The cap counter is local to one query: with two channel values and
`max_rows = 1`, a store that opens every document, the accumulated one of the
second channel too, makes one invocation emit two rows. -/
theorem cap_is_per_query_example :
    getMaxRows ctxTwoChannelsCap1 = some 1 ∧
      (genWindowsEventLog (openStore [sampleEvent "1"]) ctxTwoChannelsCap1 emptyWorld).map
        (fun w => w.rows.length) = some 2 := by
  decide

/-- The run of the witness: the query of the first channel yields one row, the
document of the second channel is refused and the invocation ends. -/
theorem two_channels_cap_example :
    (genWindowsEventLog (strictStore [sampleEvent "1", sampleEvent "2", sampleEvent "3"])
        ctxTwoChannelsCap1 emptyWorld).map (fun w => (w.rows.length, w.lastError)) =
      some (1, 15001) := by
  decide

/-! ## C2, C3: rows of a plan whose fetches never fail -/

/-- Without a `max_rows` equality constraint `getMaxRows` is -1. -/
theorem getMaxRows_absent (ctx : QueryContext)
    (h : hasConstraint ctx kMaxRowsColumn kMaxRowsOperator = false) :
    getMaxRows ctx = some (-1) := by
  unfold getMaxRows
  rw [h]
  rfl

theorem planQueries_invalid (env : Env) (ctx : QueryContext) (w : World)
    (h : ValidationFailure env ctx) : planQueries env ctx w = none := by
  unfold planQueries
  dsimp only
  by_cases hx : hasConstraint ctx "xpath" .EQUALS = true
  · rcases h with ⟨_, h⟩ | h | ⟨_, h⟩ | ⟨_, h⟩
    · have : shouldHandleXpath ctx = false := by
        unfold shouldHandleXpath
        split
        · rfl
        · rcases h with h | h | h <;> simp [h]
      simp [hx, this]
    · have : shouldHandleXpath ctx = false := by
        unfold shouldHandleXpath
        rw [if_pos h]
      simp [hx, this]
    · by_cases hs : shouldHandleXpath ctx = true
      · simp only [hx, hs, Bool.not_true, Bool.and_false, Bool.false_eq_true, if_false,
          if_true]
        rw [h]
      · simp [hx, hs]
    · rw [hx] at h; simp at h
  · rcases h with ⟨h, _⟩ | h | ⟨h, _⟩ | ⟨h, _⟩
    · exact absurd h hx
    · exfalso
      apply hx
      unfold hasConstraint
      cases hl : getAll ctx "xpath" .EQUALS with
      | nil => rw [hl] at h; simp at h
      | cons a l => rfl
    · exact absurd h hx
    · simp [hx, h]

/-- C4. On a validation failure `genWindowsEventLog` returns having emitted no
row and made no native call: the rows, the call log and the database are those
it started with, so `EvtQuery` is never called. -/
theorem C4_validation_failure_is_silent (env : Env) (ctx : QueryContext) (w : World)
    (h : ValidationFailure env ctx) :
    ∃ w', genWindowsEventLog env ctx w = some w' ∧ w'.rows = w.rows ∧ w'.calls = w.calls ∧
      w'.db = w.db := by
  unfold genWindowsEventLog
  dsimp only
  rw [planQueries_invalid env ctx _ h]
  exact ⟨_, rfl, rfl, rfl, rfl⟩

/-- C4 witness: an xpath combined with a channel constraint. -/
theorem C4_validation_failure_is_silent_witness :
    ∃ w', genWindowsEventLog (openStore twentyEvents) ctxXpathAndChannel emptyWorld = some w' ∧
      w'.rows = emptyWorld.rows ∧ w'.calls = emptyWorld.calls ∧ w'.db = emptyWorld.db :=
  C4_validation_failure_is_silent (openStore twentyEvents) ctxXpathAndChannel emptyWorld
    (Or.inl ⟨by decide, Or.inl (by decide)⟩)


/-! ## The scan as one pass over the result set -/

set_option maxRecDepth 8000 in
/-- The run of the witness: the query document asks for event 4624 at or after
the stored watermark, and the watermark moves forward to the last event. -/
theorem watermark_advances_example :
    (genWindowsEventLog (openStore eventsAfterWatermark) ctxSequentialEventId
        (worldWithWatermark "2024-01-01T00:00:00Z")).map
          (fun w => (w.calls.head?, storedWatermark ctxSequentialEventId w.db)) =
      some (some (.query "Application"
        "<QueryList><Query Id=\"0\"><Select Path=\"Application\">*[System[(EventID=4624) and TimeCreated[@SystemTime&gt;='2024-01-01T00:00:00Z']]]</Select></Query></QueryList>"
        1 true), "2024-01-03T00:00:00Z") := by
  decide

/-- C7 (code at the failing input). With the channel values Application and
System and no other constraint, the plan of the first channel carries the
document of the claim, but the plan of System carries the document of
Application followed by a second `Select` and a second closing suffix:
`welSearchQuery` is declared before the loop and never reset. -/
theorem C7_second_document_accumulates :
    (planQueries (openStore []) ctxTwoChannels emptyWorld).map (fun r => r.1) = some
      [("Application",
        "<QueryList><Query Id=\"0\"><Select Path=\"Application\">*</Select></Query></QueryList>"),
       ("System",
        "<QueryList><Query Id=\"0\"><Select Path=\"Application\">*</Select></Query></QueryList><Select Path=\"System\">*</Select></Query></QueryList>")] ∧
      kEventLogXmlPrefix ++ "<Select Path=\"System\">" ++
          (genXfilterFromConstraints ctxTwoChannels emptyWorld.db { datetime := "" }).1 ++
          "</Select>" ++ kEventLogXmlSuffix
        = "<QueryList><Query Id=\"0\"><Select Path=\"System\">*</Select></Query></QueryList>" := by
  decide

/-! ## C8: a query that cannot be opened -/

theorem renderQueryResults_threw (ctx : QueryContext) (q : EvtHandle) (w w' : World) (m : Int)
    (hmax : getMaxRows ctx = some m) (h : renderQueryResults ctx q w = some w') :
    w'.threw = w.threw := by
  unfold renderQueryResults at h
  simp only [hmax] at h
  split at h
  · simp at h
  · simp only [Option.some.injEq] at h
    subst h
    rfl

/-- C8 (amended). When the plans before `p` all open (and `max_rows` is
readable), and the native query of plan `p` cannot be opened, the loop over the
plans ends at `p`: its result is the result of the plans before `p` with the
failed `EvtQuery` logged, whatever plans follow; the rows of the earlier plans
stay emitted and no later plan is opened. -/
theorem C8_open_failure_ends_invocation (env : Env) (ctx : QueryContext) (sequential : Bool)
    (m : Int) (e : Nat) (p : String × String) (post : List (String × String))
    (hmax : getMaxRows ctx = some m)
    (hfail : env.evtQuery p.1 p.2
      (if sequential then EvtQueryChannelPath
        else EvtQueryChannelPath ||| EvtQueryReverseDirection) = .error e) :
    ∀ (pre : List (String × String)) (w : World), w.threw = false →
      (∀ x ∈ pre, ∃ h, env.evtQuery x.1 x.2
        (if sequential then EvtQueryChannelPath
          else EvtQueryChannelPath ||| EvtQueryReverseDirection) = .ok h) →
      runPlans env ctx sequential (pre ++ p :: post) w =
        (runPlans env ctx sequential pre w).map (fun w1 =>
          { w1 with
            lastError := e
            calls := w1.calls ++ [.query p.1 p.2
              (if sequential then EvtQueryChannelPath
                else EvtQueryChannelPath ||| EvtQueryReverseDirection) false] }) := by
  intro pre
  induction pre with
  | nil =>
    intro w _ _
    simp only [List.nil_append, runPlans, hfail, Option.map_some']
  | cons x rest ih =>
    intro w hw hopen
    obtain ⟨h, hx⟩ := hopen x (List.mem_cons_self _ _)
    simp only [List.cons_append, runPlans, hx]
    split
    · rfl
    · next w1 hw1 =>
      have ht := renderQueryResults_threw ctx h _ w1 m hmax hw1
      dsimp only at ht
      rw [hw] at ht
      simp only [ht, Bool.false_eq_true, if_false]
      exact ih _ rfl (fun y hy => hopen y (List.mem_cons_of_mem _ hy))

/-- C8 witness: no plan before the failing one, one plan after it. -/
theorem C8_open_failure_ends_invocation_witness :
    runPlans (storeFailingOn "Application" twentyEvents) ctxTwoChannels false
        ([] ++ ("Application", "a") :: [("System", "b")]) emptyWorld =
      (runPlans (storeFailingOn "Application" twentyEvents) ctxTwoChannels false []
        emptyWorld).map (fun w1 =>
          { w1 with
            lastError := 15007
            calls := w1.calls ++ [.query "Application" "a"
              (if false then EvtQueryChannelPath
                else EvtQueryChannelPath ||| EvtQueryReverseDirection) false] }) :=
  C8_open_failure_ends_invocation (storeFailingOn "Application" twentyEvents) ctxTwoChannels
    false (-1) 15007 ("Application", "a") [("System", "b")] (by decide) rfl []
    emptyWorld rfl (by simp)

/-- C8 counterexample: the channel Application cannot be opened, the channel
System holds twenty events; the invocation emits no row and never queries
System. -/
theorem C8_counterexample :
    (genWindowsEventLog (storeFailingOn "Application" twentyEvents) ctxTwoChannels
        emptyWorld).map (fun w => (w.rows.length, w.calls)) =
      some (0, [.query "Application"
        "<QueryList><Query Id=\"0\"><Select Path=\"Application\">*</Select></Query></QueryList>"
        513 false]) ∧
      ((storeFailingOn "Application" twentyEvents).evtQuery "System" "" 513).toOption.map
        (fun h => h.events.length) = some 20 := by
  decide


/-! ## C9: the time_range predicate -/

theorem splitChars_of_not_mem (d : Char) :
    ∀ l : List Char, d ∉ l → splitChars d l = [l] := by
  intro l
  induction l with
  | nil => intro _; rfl
  | cons c cs ih =>
    intro h
    simp only [List.mem_cons, not_or] at h
    have hc : c ≠ d := fun e => h.1 e.symm
    simp [splitChars, hc, ih h.2]

theorem splitChars_append (d : Char) (t : List Char) :
    ∀ l : List Char, d ∉ l → splitChars d (l ++ d :: t) = l :: splitChars d t := by
  intro l
  induction l with
  | nil => intro _; simp [splitChars]
  | cons c cs ih =>
    intro h
    simp only [List.mem_cons, not_or] at h
    have hc : c ≠ d := fun e => h.1 e.symm
    simp [splitChars, hc, ih h.2]

theorem split_single (s : String) (hs : noSemicolon s) : split s ';' = [s] := by
  unfold split
  rw [splitChars_of_not_mem ';' s.data hs]
  rfl

theorem split_pair (s e : String) (hs : noSemicolon s) (he : noSemicolon e) :
    split (s ++ ";" ++ e) ';' = [s, e] := by
  unfold split
  have : (s ++ ";" ++ e).data = s.data ++ ';' :: e.data := by
    simp [String.data_append]
  rw [this, splitChars_append ';' e.data s.data hs, splitChars_of_not_mem ';' e.data he]
  rfl

theorem contains_refl (a : String) : contains a a := List.infix_refl _

theorem contains_append_left (a b p : String) (h : contains b p) : contains (a ++ b) p := by
  unfold contains at h ⊢
  rw [String.data_append]
  exact List.IsInfix.trans h (List.suffix_append a.data b.data).isInfix

theorem contains_append_right (a b p : String) (h : contains a p) : contains (a ++ b) p := by
  unfold contains at h ⊢
  rw [String.data_append]
  exact List.IsInfix.trans h (List.prefix_append a.data b.data).isInfix

theorem join_contains (sep : String) :
    ∀ (l : List String) (p : String), p ∈ l → contains (join l sep) p := by
  intro l
  induction l with
  | nil => intro p h; simp at h
  | cons a rest ih =>
    intro p hp
    cases rest with
    | nil =>
      simp only [List.mem_singleton] at hp
      subst hp
      exact contains_refl _
    | cons b rest2 =>
      simp only [join]
      rcases List.mem_cons.mp hp with h | h
      · subst h
        exact contains_append_right _ _ _ (contains_append_right _ _ _ (contains_refl _))
      · exact contains_append_left _ _ _ (ih p h)


theorem join_snoc (sep p : String) :
    ∀ l : List String, join (l ++ [p]) sep = joinLead l sep ++ p := by
  intro l
  induction l with
  | nil => simp [join, joinLead]
  | cons a rest ih =>
    cases rest with
    | nil => simp [join, joinLead, String.append_assoc]
    | cons b rest2 =>
      have : join (a :: b :: rest2 ++ [p]) sep = a ++ sep ++ join (b :: rest2 ++ [p]) sep := by
        simp [join]
      rw [this, ih]
      simp [joinLead, String.append_assoc]

theorem noSemicolon_append (a b : String) :
    noSemicolon (a ++ b) ↔ noSemicolon a ∧ noSemicolon b := by
  unfold noSemicolon
  rw [String.data_append, List.mem_append, not_or]

theorem noSemicolon_join (sep : String) (hsep : noSemicolon sep) :
    ∀ l : List String, (∀ x ∈ l, noSemicolon x) → noSemicolon (join l sep) := by
  intro l
  induction l with
  | nil => intro _; unfold noSemicolon join; decide
  | cons a rest ih =>
    intro h
    cases rest with
    | nil => exact h a (List.mem_cons_self _ _)
    | cons b rest2 =>
      simp only [join]
      rw [noSemicolon_append, noSemicolon_append]
      exact ⟨⟨h a (List.mem_cons_self _ _), hsep⟩,
        ih (fun x hx => h x (List.mem_cons_of_mem _ hx))⟩

theorem noSemicolon_joinLead (sep : String) (hsep : noSemicolon sep) :
    ∀ l : List String, (∀ x ∈ l, noSemicolon x) → noSemicolon (joinLead l sep) := by
  intro l
  induction l with
  | nil => intro _; simp [noSemicolon, joinLead]
  | cons a rest ih =>
    intro h
    simp only [joinLead, List.foldr_cons]
    rw [noSemicolon_append, noSemicolon_append]
    exact ⟨⟨h a (List.mem_cons_self _ _), hsep⟩,
      ih (fun x hx => h x (List.mem_cons_of_mem _ hx))⟩

/-- A sequence with a single occurrence of `c` splits around it in one way. -/
theorem split_unique (c : Char) :
    ∀ (x y x2 y2 : List Char), c ∉ x → c ∉ y → x ++ c :: y = x2 ++ c :: y2 → x = x2 := by
  intro x
  induction x with
  | nil =>
    intro y x2 y2 _ hy h
    cases x2 with
    | nil => rfl
    | cons a t =>
      simp only [List.nil_append, List.cons_append, List.cons.injEq] at h
      exfalso
      apply hy
      rw [h.2]
      simp
  | cons b u ih =>
    intro y x2 y2 hx hy h
    simp only [List.mem_cons, not_or] at hx
    cases x2 with
    | nil =>
      simp only [List.nil_append, List.cons_append, List.cons.injEq] at h
      exact absurd h.1.symm hx.1
    | cons a t =>
      simp only [List.cons_append, List.cons.injEq] at h
      rw [h.1, ih y t y2 hx.2 hy h.2]

theorem xfilterList_time_range (ctx : QueryContext) (seqItem : SequentialItem) (v : String)
    (h : (getAll ctx "time_range" .EQUALS).head? = some v) :
    xfilterList ctx seqItem = idFilters ctx ++ timeRangeFilter v := by
  have hne : getAll ctx "time_range" .EQUALS ≠ [] := by
    intro h0; rw [h0] at h; simp at h
  have hd : (getAll ctx "time_range" .EQUALS).headD "" = v := by
    cases hl : getAll ctx "time_range" .EQUALS with
    | nil => exact absurd hl hne
    | cons a l => rw [hl] at h; simpa using h
  unfold xfilterList idFilters
  simp only [hne, ne_eq, not_false_eq_true, if_true, hd]
  by_cases h1 : getAll ctx "eventid" .EQUALS = [] <;>
    by_cases h2 : getAll ctx "pid" .EQUALS = [] <;> simp [h1, h2]

theorem genXfilter_time_range (ctx : QueryContext) (db : Database) (seqItem : SequentialItem)
    (v p : String) (h : (getAll ctx "time_range" .EQUALS).head? = some v)
    (hp : timeRangeFilter v = [p]) :
    (genXfilterFromConstraints ctx db seqItem).1 =
      "*[System[" ++ (joinLead (idFilters ctx) " and " ++ p) ++ "]]" := by
  unfold genXfilterFromConstraints
  dsimp only
  rw [xfilterList_time_range ctx _ v h, hp, join_snoc]
  rw [if_neg (by simp)]

theorem noSemicolon_idFilters (ctx : QueryContext)
    (hids : ∀ v ∈ getAll ctx "eventid" .EQUALS ++ getAll ctx "pid" .EQUALS, noSemicolon v) :
    ∀ x ∈ idFilters ctx, noSemicolon x := by
  intro x hx
  unfold idFilters at hx
  rcases List.mem_append.mp hx with h | h
  · split at h
    · simp only [List.mem_singleton] at h
      subst h
      rw [noSemicolon_append, noSemicolon_append]
      refine ⟨⟨by unfold noSemicolon; decide, ?_⟩, by unfold noSemicolon; decide⟩
      exact noSemicolon_join _ (by unfold noSemicolon; decide) _
        (fun v hv => hids v (List.mem_append_left _ hv))
    · simp at h
  · split at h
    · simp only [List.mem_singleton] at h
      subst h
      rw [noSemicolon_append, noSemicolon_append]
      refine ⟨⟨by unfold noSemicolon; decide, ?_⟩, by unfold noSemicolon; decide⟩
      exact noSemicolon_join _ (by unfold noSemicolon; decide) _
        (fun v hv => hids v (List.mem_append_right _ hv))
    · simp at h

/-- A filter whose only time predicate is a lower bound on a text without `;`
has no `@SystemTime&lt;=` term. -/
theorem lower_bound_only (lead s : String) (hlead : noSemicolon lead) (hs : noSemicolon s) :
    ¬ contains ("*[System[" ++ (lead ++ ("TimeCreated[@SystemTime&gt;='" ++ s ++ "']")) ++ "]]")
      "@SystemTime&lt;=" := by
  intro hc
  obtain ⟨pre, post, hpp⟩ := hc
  have hneedle : "@SystemTime&lt;=".data =
      "@SystemTime&".data ++ ['l', 't'] ++ ';' :: "=".data := by decide
  have hhay : ("*[System[" ++ (lead ++ ("TimeCreated[@SystemTime&gt;='" ++ s ++ "']")) ++
        "]]").data =
      (("*[System[".data ++ lead.data ++ "TimeCreated[@SystemTime&".data) ++ ['g', 't']) ++
        ';' :: ("='".data ++ s.data ++ "']".data ++ "]]".data) := by
    have hl : "TimeCreated[@SystemTime&gt;='".data =
        "TimeCreated[@SystemTime&".data ++ ['g', 't'] ++ ';' :: "='".data := by decide
    simp only [String.data_append, hl, List.append_assoc, List.cons_append, List.nil_append]
  rw [hhay, hneedle] at hpp
  have hx : ';' ∉ (("*[System[".data ++ lead.data ++ "TimeCreated[@SystemTime&".data) ++
      ['g', 't']) := by
    simp only [List.mem_append, not_or]
    exact ⟨⟨⟨by decide, hlead⟩, by decide⟩, by decide⟩
  have hy : ';' ∉ ("='".data ++ s.data ++ "']".data ++ "]]".data) := by
    simp only [List.mem_append, not_or]
    exact ⟨⟨⟨by decide, hs⟩, by decide⟩, by decide⟩
  have hsplit := split_unique ';' _ _ ((pre ++ "@SystemTime&".data) ++ ['l', 't'])
    ("=".data ++ post) hx hy (by
      rw [← hpp]
      simp only [List.append_assoc, List.cons_append, List.nil_append])
  have := (List.append_inj' hsplit rfl).2
  exact absurd this (by decide)


/-- C9 (amended). For non-empty `s` and `e` without `;`: when the `time_range`
value is `s;e` the filter built by `genXfilterFromConstraints` contains
`TimeCreated[@SystemTime&gt;='s' and @SystemTime&lt;='e']`; when it is `s` the
filter contains `TimeCreated[@SystemTime&gt;='s']` and, provided the eventid and
pid equality values are free of `;` (they are pasted into the filter as they
are), no `@SystemTime&lt;=` term at all. -/
theorem C9_time_range_bounds (ctxPair ctxStart : QueryContext) (db : Database)
    (seqItem : SequentialItem) (s e : String) (_hs : s ≠ "") (_he : e ≠ "")
    (hns : noSemicolon s) (hne : noSemicolon e)
    (hpair : (getAll ctxPair "time_range" .EQUALS).head? = some (s ++ ";" ++ e))
    (hstart : (getAll ctxStart "time_range" .EQUALS).head? = some s)
    (hids : ∀ v ∈ getAll ctxStart "eventid" .EQUALS ++ getAll ctxStart "pid" .EQUALS,
      noSemicolon v) :
    contains (genXfilterFromConstraints ctxPair db seqItem).1
        ("TimeCreated[@SystemTime&gt;='" ++ s ++ "' and @SystemTime&lt;='" ++ e ++ "']") ∧
      contains (genXfilterFromConstraints ctxStart db seqItem).1
        ("TimeCreated[@SystemTime&gt;='" ++ s ++ "']") ∧
      ¬ contains (genXfilterFromConstraints ctxStart db seqItem).1 "@SystemTime&lt;=" := by
  have hp2 : timeRangeFilter (s ++ ";" ++ e) =
      ["TimeCreated[@SystemTime&gt;='" ++ s ++ "' and @SystemTime&lt;='" ++ e ++ "']"] := by
    unfold timeRangeFilter
    rw [split_pair s e hns hne]
  have hp1 : timeRangeFilter s = ["TimeCreated[@SystemTime&gt;='" ++ s ++ "']"] := by
    unfold timeRangeFilter
    rw [split_single s hns]
  refine ⟨?_, ?_, ?_⟩
  · rw [genXfilter_time_range ctxPair db seqItem _ _ hpair hp2]
    exact contains_append_right _ _ _ (contains_append_left _ _ _
      (contains_append_left _ _ _ (contains_refl _)))
  · rw [genXfilter_time_range ctxStart db seqItem _ _ hstart hp1]
    exact contains_append_right _ _ _ (contains_append_left _ _ _
      (contains_append_left _ _ _ (contains_refl _)))
  · rw [genXfilter_time_range ctxStart db seqItem _ _ hstart hp1]
    exact lower_bound_only _ s
      (noSemicolon_joinLead _ (by unfold noSemicolon; decide) _
        (noSemicolon_idFilters ctxStart hids)) hns

/-- C9 witness: the two `time_range` values of the spec's example. -/
theorem C9_time_range_bounds_witness :
    contains (genXfilterFromConstraints ctxTimeRangePair emptyWorld.db { datetime := "" }).1
        ("TimeCreated[@SystemTime&gt;='" ++ "2024-01-01T00:00:00" ++ "' and @SystemTime&lt;='"
          ++ "2024-01-02T00:00:00" ++ "']") ∧
      contains (genXfilterFromConstraints ctxTimeRangeStart emptyWorld.db { datetime := "" }).1
        ("TimeCreated[@SystemTime&gt;='" ++ "2024-01-01T00:00:00" ++ "']") ∧
      ¬ contains (genXfilterFromConstraints ctxTimeRangeStart emptyWorld.db
        { datetime := "" }).1 "@SystemTime&lt;=" :=
  C9_time_range_bounds ctxTimeRangePair ctxTimeRangeStart emptyWorld.db { datetime := "" }
    "2024-01-01T00:00:00" "2024-01-02T00:00:00" (by decide) (by decide)
    (by unfold noSemicolon; decide) (by unfold noSemicolon; decide) (by decide) (by decide)
    (by
      have h0 : getAll ctxTimeRangeStart "eventid" .EQUALS ++
          getAll ctxTimeRangeStart "pid" .EQUALS = [] := by decide
      rw [h0]
      intro v hv
      exact absurd hv (List.not_mem_nil v))

/-- C9 counterexample: `time_range` is the single segment 2024-01-01T00:00:00,
non-empty and free of `;`, and an eventid equality value carries filter text.
The value is pasted as it is, so the filter has an `@SystemTime&lt;=` term. -/
theorem C9_counterexample :
    (getAll ctxTimeRangeInjected "time_range" .EQUALS).head? = some "2024-01-01T00:00:00" ∧
      "2024-01-01T00:00:00" ≠ "" ∧ noSemicolon "2024-01-01T00:00:00" ∧
      (genXfilterFromConstraints ctxTimeRangeInjected emptyWorld.db { datetime := "" }).1 =
        "*[System[(EventID=1) or (TimeCreated[@SystemTime&lt;='2000-01-01T00:00:00']) and TimeCreated[@SystemTime&gt;='2024-01-01T00:00:00']]]" ∧
      contains (genXfilterFromConstraints ctxTimeRangeInjected emptyWorld.db
        { datetime := "" }).1 "@SystemTime&lt;=" := by
  have hf : (genXfilterFromConstraints ctxTimeRangeInjected emptyWorld.db
      { datetime := "" }).1 =
        "*[System[(EventID=1) or (TimeCreated[@SystemTime&lt;='2000-01-01T00:00:00']) and TimeCreated[@SystemTime&gt;='2024-01-01T00:00:00']]]" := by
    decide
  refine ⟨by decide, by decide, by unfold noSemicolon; decide, hf, ?_⟩
  rw [hf]
  exact ⟨"*[System[(EventID=1) or (TimeCreated[".data,
    "'2000-01-01T00:00:00']) and TimeCreated[@SystemTime&gt;='2024-01-01T00:00:00']]]".data,
    by decide⟩

/-! ## C10: retry after an invalid-bound failure -/

theorem callEvtNext_calls (s : RenderState) :
    (∀ blk, (callEvtNext s).1 = some blk →
        (callEvtNext s).2.calls = s.calls ++ [.next s.numEventsBlock (.delivered blk.length)]) ∧
      ((callEvtNext s).1 = none →
        (callEvtNext s).2.calls =
          s.calls ++ [.next s.numEventsBlock (.failed (callEvtNext s).2.lastError)]) := by
  unfold callEvtNext
  split
  · refine ⟨fun blk h => ?_, fun h => ?_⟩
    · simp only [Option.some.injEq] at h
      subst h
      rfl
    · simp at h
  · refine ⟨fun blk h => ?_, fun _ => rfl⟩
    simp at h

theorem callEvtSeek_calls (s : RenderState) :
    ∃ ok, (callEvtSeek s).calls = s.calls ++ [.seek s.position ok] := by
  unfold callEvtSeek
  split
  · exact ⟨true, rfl⟩
  · exact ⟨false, rfl⟩

theorem whileRet_none (ctx : QueryContext) (m : Int) (fuel : Nat) (s : RenderState) :
    whileRet ctx m fuel none s = some s := by
  cases fuel <;> rfl

/-- The run of the witness: the seek restores position 0 and the three events
are then delivered by the fetch with block size 512. -/
theorem invalid_bound_retry_example :
    (renderQueryResults ctxOneChannel handleOneInvalidBound emptyWorld).map
        (fun w => (w.calls, w.rows.map (fun r => r.datetime))) =
      some ([.next 1024 (.failed 1734), .seek 0 true, .next 512 (.delivered 3),
        .next 512 (.failed 259)], ["1", "2", "3"]) := by
  decide


/-- The run of the witness: the failed fetch is followed by the seek to
position 0 and the fetch with block size 512, whose three events meet the cap
of two rows. -/
theorem capped_retry_example :
    (renderQueryResults ctxSequentialCap2 handleOneInvalidBound emptyWorld).map
        (fun w => (w.calls, w.rows.map (fun r => r.datetime))) =
      some ([.next 1024 (.failed 1734), .seek 0 true, .next 512 (.delivered 3),
        .next 512 (.failed 259)], ["1", "2"]) := by
  decide

/-! ## C11: the plan of a single-channel query -/

/-- The loops of one plan only add fetch and seek calls to the log. -/
theorem renderQueryResults_calls (ctx : QueryContext) (q : EvtHandle) (w w' : World)
    (h : renderQueryResults ctx q w = some w') :
    ∃ t, w'.calls = w.calls ++ t ∧ ∀ x ∈ t, x.isQuery = false := by
  unfold renderQueryResults at h
  dsimp only at h
  split at h
  · simp only [Option.some.injEq] at h
    subst h
    exact ⟨[], by simp, by simp⟩
  · next maxRows _ =>
    split at h
    · simp at h
    · next s hs =>
      simp only [Option.some.injEq] at h
      subst h
      refine whileBlock_induct ctx maxRows
        (fun t => ∃ l, t.calls = w.calls ++ l ∧ ∀ x ∈ l, x.isQuery = false)
        (fun evs t ht => by
          show ∃ l, (forEvents ctx maxRows evs t).calls = w.calls ++ l ∧ _
          rw [forEvents_calls]; exact ht)
        (fun t ht => ?_) (fun t ht => ?_) _ _ _ hs ⟨[], by simp, by simp⟩
      · obtain ⟨l, h1, h2⟩ := ht
        obtain ⟨c1, c2⟩ := callEvtNext_calls t
        cases hr : (callEvtNext t).1 with
        | some blk =>
          refine ⟨l ++ [.next t.numEventsBlock (.delivered blk.length)], ?_, ?_⟩
          · rw [c1 blk hr, h1, List.append_assoc]
          · intro x hx
            rcases List.mem_append.mp hx with hx | hx
            · exact h2 x hx
            · simp only [List.mem_singleton] at hx; subst hx; rfl
        | none =>
          refine ⟨l ++ [.next t.numEventsBlock (.failed (callEvtNext t).2.lastError)], ?_, ?_⟩
          · rw [c2 hr, h1, List.append_assoc]
          · intro x hx
            rcases List.mem_append.mp hx with hx | hx
            · exact h2 x hx
            · simp only [List.mem_singleton] at hx; subst hx; rfl
      · obtain ⟨l, h1, h2⟩ := ht
        obtain ⟨ok, c1⟩ := callEvtSeek_calls { t with numEventsBlock := t.numEventsBlock / 2 }
        refine ⟨l ++ [.seek t.position ok], ?_, ?_⟩
        · rw [c1]; dsimp only; rw [h1, List.append_assoc]
        · intro x hx
          rcases List.mem_append.mp hx with hx | hx
          · exact h2 x hx
          · simp only [List.mem_singleton] at hx; subst hx; rfl

/-- The loop over a single plan makes one `EvtQuery` call, with the flags chosen
from the sequential mode. -/
theorem runPlans_single (env : Env) (ctx : QueryContext) (sequential : Bool)
    (p : String × String) (w : World) :
    ∃ w' opened rest, runPlans env ctx sequential [p] w = some w' ∧
      w'.calls = w.calls ++ .query p.1 p.2
        (if sequential then EvtQueryChannelPath
          else EvtQueryChannelPath ||| EvtQueryReverseDirection) opened :: rest ∧
      ∀ x ∈ rest, x.isQuery = false := by
  simp only [runPlans]
  split
  · exact ⟨_, false, [], rfl, rfl, by simp⟩
  · next q hq =>
    obtain ⟨w1, hw1⟩ := renderQueryResults_total ctx q
      { w with calls := w.calls ++ [.query p.1 p.2
        (if sequential = true then EvtQueryChannelPath
          else EvtQueryChannelPath ||| EvtQueryReverseDirection) true] }
    obtain ⟨t, ht1, ht2⟩ := renderQueryResults_calls ctx q _ w1 hw1
    dsimp only at ht1
    rw [hw1]
    dsimp only
    split
    · exact ⟨w1, true, t, rfl, by rw [ht1]; simp, ht2⟩
    · refine ⟨_, true, t ++ [.close], rfl, by dsimp only; rw [ht1]; simp, ?_⟩
      intro x hx
      rcases List.mem_append.mp hx with hx | hx
      · exact ht2 x hx
      · simp only [List.mem_singleton] at hx; subst hx; rfl


theorem isSequential_of_first (ctx : QueryContext)
    (h : (getAll ctx kSentinalColumn kSentinalOperator).head? = some kSentinalValue) :
    isSequential ctx = true := by
  unfold isSequential hasConstraint
  cases hl : getAll ctx kSentinalColumn kSentinalOperator with
  | nil => rw [hl] at h; simp at h
  | cons a l =>
    rw [hl] at h
    simp only [List.head?_cons, Option.some.injEq] at h
    simp [h]

theorem isSequential_of_absent (ctx : QueryContext)
    (h : kSentinalValue ∉ getAll ctx kSentinalColumn kSentinalOperator) :
    isSequential ctx = false := by
  unfold isSequential hasConstraint
  cases hl : getAll ctx kSentinalColumn kSentinalOperator with
  | nil => simp
  | cons a l =>
    rw [hl] at h
    simp only [List.mem_cons, not_or] at h
    have : a ≠ kSentinalValue := fun e => h.1 e.symm
    simp [this]

/-- With no equality constraint on eventid, pid, time_range or timestamp and no
stored watermark for the channel, the filter is the wildcard and the sequential
item stays empty. -/
theorem genXfilter_wildcard (ctx : QueryContext) (db : Database) (c : String)
    (hchan : getAll ctx "channel" .EQUALS = [c])
    (he : getAll ctx "eventid" .EQUALS = []) (hp : getAll ctx "pid" .EQUALS = [])
    (ht : getAll ctx "time_range" .EQUALS = []) (hs : getAll ctx "timestamp" .EQUALS = [])
    (hdb : getDatabaseValue db (kWinEvLogDateKey ++ c) = none) :
    genXfilterFromConstraints ctx db { datetime := "" } = ("*", { datetime := "" }) := by
  have hload : (if isSequential ctx = true then SequentialItem.load { datetime := "" } ctx db
      else { datetime := "" }) = ({ datetime := "" } : SequentialItem) := by
    split
    · unfold SequentialItem.load
      simp only [hchan, List.headD_cons, hdb]
      split <;> rfl
    · rfl
  unfold genXfilterFromConstraints
  dsimp only
  rw [hload]
  have hl : xfilterList ctx { datetime := "" } = [] := by
    unfold xfilterList
    simp [he, hp, ht, hs]
  rw [hl]
  rfl

theorem isSequential_of_not_first (ctx : QueryContext)
    (h : (getAll ctx kSentinalColumn kSentinalOperator).head? ≠ some kSentinalValue) :
    isSequential ctx = false := by
  unfold isSequential hasConstraint
  cases hl : getAll ctx kSentinalColumn kSentinalOperator with
  | nil => simp
  | cons a l =>
    rw [hl] at h
    simp only [List.head?_cons, ne_eq, Option.some.injEq] at h
    simp [h]

/-- C11 (amended). For a constraint set with exactly one channel value `c`, no
xpath equality constraint, no equality constraint on eventid, pid, time_range or
timestamp, and no stored watermark for `c`: the filter is the wildcard `*`;
exactly one plan is produced, for `c`, with the document built from that
filter; the invocation calls `EvtQuery` once, for that plan; and the flags are
channel path alone (oldest first), sequential mode true, when the sentinel `-1`
is the first of the greater-than values on eventid in the order of the set, and
channel path plus reverse direction (newest first), sequential mode false, in
every other case: the sentinel absent, or another greater-than value before it. -/
theorem C11_single_channel_plan (env : Env) (ctx : QueryContext) (w : World) (c : String)
    (hchan : getAll ctx "channel" .EQUALS = [c]) (hx : getAll ctx "xpath" .EQUALS = [])
    (he : getAll ctx "eventid" .EQUALS = []) (hp : getAll ctx "pid" .EQUALS = [])
    (ht : getAll ctx "time_range" .EQUALS = []) (hs : getAll ctx "timestamp" .EQUALS = [])
    (hdb : getDatabaseValue w.db (kWinEvLogDateKey ++ c) = none) :
    (genXfilterFromConstraints ctx w.db { datetime := "" }).1 = "*" ∧
      planQueries env ctx { w with seqItem := { datetime := "" } } =
        some ([(c, channelDocument c "*")], { datetime := "" }) ∧
      (∃ w' flags opened rest, genWindowsEventLog env ctx w = some w' ∧
        w'.calls = w.calls ++ .query c (channelDocument c "*") flags opened :: rest ∧
        (∀ x ∈ rest, x.isQuery = false) ∧
        (if (getAll ctx kSentinalColumn kSentinalOperator).head? = some kSentinalValue then
          isSequential ctx = true ∧ flags = EvtQueryChannelPath
        else
          isSequential ctx = false ∧
            flags = EvtQueryChannelPath ||| EvtQueryReverseDirection)) := by
  have hf := genXfilter_wildcard ctx w.db c hchan he hp ht hs hdb
  have hplan : planQueries env ctx { w with seqItem := { datetime := "" } } =
      some ([(c, channelDocument c "*")], { datetime := "" }) := by
    unfold planQueries
    simp only [hasConstraint, hx, hchan, hf]
    simp [channelPlans, setInsert, channelDocument]
  refine ⟨by rw [hf], hplan, ?_⟩
  obtain ⟨w', opened, rest, h1, h2, h3⟩ := runPlans_single env ctx (isSequential ctx)
    (c, channelDocument c "*") { w with seqItem := { datetime := "" } }
  refine ⟨w', _, opened, rest, ?_, h2, h3, ?_⟩
  · unfold genWindowsEventLog
    dsimp only
    rw [hplan]
    exact h1
  · split
    · next hb =>
      have := isSequential_of_first ctx hb
      simp [this]
    · next hb =>
      have := isSequential_of_not_first ctx hb
      simp [this]

/-- C11 witness: the channel Application and the sentinel `eventid > -1` as the
only greater-than value, empty database. -/
theorem C11_single_channel_plan_witness :
    (genXfilterFromConstraints ctxSequential emptyWorld.db { datetime := "" }).1 = "*" ∧
      planQueries (openStore twentyEvents) ctxSequential
          { emptyWorld with seqItem := { datetime := "" } } =
        some ([("Application", channelDocument "Application" "*")], { datetime := "" }) ∧
      (∃ w' flags opened rest,
        genWindowsEventLog (openStore twentyEvents) ctxSequential emptyWorld = some w' ∧
        w'.calls = emptyWorld.calls ++
          .query "Application" (channelDocument "Application" "*") flags opened :: rest ∧
        (∀ x ∈ rest, x.isQuery = false) ∧
        (if (getAll ctxSequential kSentinalColumn kSentinalOperator).head? = some kSentinalValue
          then isSequential ctxSequential = true ∧ flags = EvtQueryChannelPath
        else
          isSequential ctxSequential = false ∧
            flags = EvtQueryChannelPath ||| EvtQueryReverseDirection)) :=
  C11_single_channel_plan (openStore twentyEvents) ctxSequential emptyWorld "Application"
    (by decide) (by decide) (by decide) (by decide) (by decide) (by decide) (by decide)

/-- C11 counterexample. First input: one channel value, no equality constraint
on eventid, pid, time_range or timestamp, no stored watermark, but an xpath
equality constraint as well: no plan is produced and `EvtQuery` is never called.
Second input: one channel value and the sentinel `eventid > -1` present together
with `eventid > !`, which precedes it in the set: sequential mode is false and
the query is opened with flags 513, newest first. -/
theorem C11_counterexample :
    (getAll ctxXpathAndChannel "channel" .EQUALS = ["System"] ∧
      getAll ctxXpathAndChannel "eventid" .EQUALS = [] ∧
      getAll ctxXpathAndChannel "pid" .EQUALS = [] ∧
      getAll ctxXpathAndChannel "time_range" .EQUALS = [] ∧
      getAll ctxXpathAndChannel "timestamp" .EQUALS = [] ∧
      getDatabaseValue emptyWorld.db (kWinEvLogDateKey ++ "System") = none ∧
      planQueries (openStore twentyEvents) ctxXpathAndChannel emptyWorld = none ∧
      (genWindowsEventLog (openStore twentyEvents) ctxXpathAndChannel emptyWorld).map
        (fun w => w.calls) = some []) ∧
    (getAll ctxSentinelSecond "channel" .EQUALS = ["Application"] ∧
      getAll ctxSentinelSecond "xpath" .EQUALS = [] ∧
      getAll ctxSentinelSecond "eventid" .EQUALS = [] ∧
      getAll ctxSentinelSecond "pid" .EQUALS = [] ∧
      getAll ctxSentinelSecond "time_range" .EQUALS = [] ∧
      getAll ctxSentinelSecond "timestamp" .EQUALS = [] ∧
      kSentinalValue ∈ getAll ctxSentinelSecond kSentinalColumn kSentinalOperator ∧
      isSequential ctxSentinelSecond = false ∧
      (genWindowsEventLog (openStore []) ctxSentinelSecond emptyWorld).map (fun w => w.calls) =
        some [.query "Application" (channelDocument "Application" "*") 513 true,
          .next 1024 (.failed 259), .close]) := by
  decide

/-- The two end-to-end scenarios of the spec on the channel Application: without
the sentinel the query is opened with flags 513 (reverse direction), with the
sentinel and no stored watermark with flags 1, the filter being the wildcard in
both. -/
theorem single_channel_scenarios :
    (genWindowsEventLog (openStore []) ctxOneChannel emptyWorld).map (fun w => w.calls) =
        some [.query "Application"
          "<QueryList><Query Id=\"0\"><Select Path=\"Application\">*</Select></Query></QueryList>"
          513 true, .next 1024 (.failed 259), .close] ∧
      (genWindowsEventLog (openStore []) ctxSequential emptyWorld).map (fun w => w.calls) =
        some [.query "Application"
          "<QueryList><Query Id=\"0\"><Select Path=\"Application\">*</Select></Query></QueryList>"
          1 true, .next 1024 (.failed 259), .close] := by
  decide


/-! ## C12: the cap within one plan -/

/-- The run of the C12 witness: the boundary event is dropped and the two
events after it are emitted. -/
theorem resumed_cap_example :
    (renderQueryResults ctxSequentialCap2 (freshHandle eventsFromWatermark)
        (resumedWorld "2024-01-01T00:00:00Z")).map (fun w => w.rows.map (fun r => r.datetime))
      = some ["2024-01-02T00:00:00Z", "2024-01-03T00:00:00Z"] := by
  decide


/-! ## C13: a time_range with more than two segments -/

theorem timeRangeFilter_many (v : String) (h : 2 < (split v ';').length) :
    timeRangeFilter v = [] := by
  unfold timeRangeFilter
  split
  · next start heq => rw [heq] at h; simp at h
  · next start stop heq => rw [heq] at h; simp at h
  · rfl

/-- C13 (amended). When the `time_range` value splits on `;` into more than two
segments, `genXfilterFromConstraints` adds no time predicate at all: the filter
is built from the event id and process id predicates alone, and is the wildcard
when there are none. -/
theorem C13_extra_segments_drop_time_predicate (ctx : QueryContext) (db : Database)
    (seqItem : SequentialItem) (v : String)
    (htr : (getAll ctx "time_range" .EQUALS).head? = some v)
    (hseg : 2 < (split v ';').length) :
    (genXfilterFromConstraints ctx db seqItem).1 =
      if idFilters ctx = [] then "*"
      else "*[System[" ++ join (idFilters ctx) " and " ++ "]]" := by
  unfold genXfilterFromConstraints
  dsimp only
  rw [xfilterList_time_range ctx _ v htr, timeRangeFilter_many v hseg, List.append_nil]

/-- C13 witness: a `time_range` of three segments. -/
theorem C13_extra_segments_drop_time_predicate_witness :
    (genXfilterFromConstraints ctxTimeRangeThree emptyWorld.db { datetime := "" }).1 =
      if idFilters ctxTimeRangeThree = [] then "*"
      else "*[System[" ++ join (idFilters ctxTimeRangeThree) " and " ++ "]]" :=
  C13_extra_segments_drop_time_predicate ctxTimeRangeThree emptyWorld.db { datetime := "" }
    "2024-01-01T00:00:00;2024-01-02T00:00:00;2024-01-03T00:00:00" (by decide) (by decide)

/-- C13 counterexample: for a `time_range` of three segments the filter is the
wildcard, while for its first two segments it carries both time bounds. -/
theorem C13_counterexample :
    split "2024-01-01T00:00:00;2024-01-02T00:00:00;2024-01-03T00:00:00" ';' =
        ["2024-01-01T00:00:00", "2024-01-02T00:00:00", "2024-01-03T00:00:00"] ∧
      (genXfilterFromConstraints ctxTimeRangeThree emptyWorld.db { datetime := "" }).1 = "*" ∧
      (genXfilterFromConstraints ctxTimeRangePair emptyWorld.db { datetime := "" }).1 =
        "*[System[TimeCreated[@SystemTime&gt;='2024-01-01T00:00:00' and @SystemTime&lt;='2024-01-02T00:00:00']]]" := by
  decide


/-! ## C14: termination and block sizes -/

/-- Invariant rule of the inner loop for properties of the calls: `EvtNext` is
only called with a block size above 32. -/
theorem whileRet_induct_blk (ctx : QueryContext) (m : Int) (P : RenderState → Prop)
    (hfor : ∀ evs s, P s → P (forEvents ctx m evs s))
    (hnext : ∀ s, 32 < s.numEventsBlock → P s → P (callEvtNext s).2) :
    ∀ (fuel : Nat) (ret : Option (List Event)) (s s' : RenderState),
      whileRet ctx m fuel ret s = some s' → 32 < s.numEventsBlock → P s → P s' := by
  intro fuel
  induction fuel with
  | zero =>
    intro ret s s' h _ hp
    cases ret with
    | none => simp [whileRet] at h; exact h ▸ hp
    | some evs => simp [whileRet] at h
  | succ n ih =>
    intro ret s s' h hb hp
    cases ret with
    | none => simp [whileRet] at h; exact h ▸ hp
    | some evs =>
      simp only [whileRet] at h
      split at h
      · simp at h; exact h ▸ hp
      · have hb1 : 32 < (forEvents ctx m evs s).numEventsBlock := by
          rw [forEvents_block]; exact hb
        refine ih _ _ _ h ?_ (hnext _ hb1 (hfor _ _ hp))
        rw [callEvtNext_block]
        exact hb1

/-- Invariant rule of the outer loop for properties of the calls: `EvtNext` and
`EvtSeek` are only called from a turn entered with a block size above 32. -/
theorem whileBlock_induct_blk (ctx : QueryContext) (m : Int) (P : RenderState → Prop)
    (hfor : ∀ evs s, P s → P (forEvents ctx m evs s))
    (hnext : ∀ s, 32 < s.numEventsBlock → P s → P (callEvtNext s).2)
    (hseek : ∀ s, 32 < s.numEventsBlock → P s →
      P (callEvtSeek { s with numEventsBlock := s.numEventsBlock / 2 })) :
    ∀ (fuel : Nat) (s s' : RenderState),
      whileBlock ctx m fuel s = some s' → P s → P s' := by
  intro fuel
  induction fuel with
  | zero =>
    intro s s' h hp
    simp only [whileBlock] at h
    split at h
    · simp at h
    · simp at h; exact h ▸ hp
  | succ n ih =>
    intro s s' h hp
    simp only [whileBlock] at h
    split at h
    · next hb =>
      split at h
      · simp at h; exact h ▸ hp
      · split at h
        · simp at h
        · next s2 hw =>
          have hb1 : 32 < (callEvtNext s).2.numEventsBlock := by
            rw [callEvtNext_block]; exact hb
          have hp2 : P s2 :=
            whileRet_induct_blk ctx m P hfor hnext _ _ _ _ hw hb1 (hnext _ hb hp)
          have hb2 : 32 < s2.numEventsBlock := by
            rw [whileRet_block ctx m _ _ _ _ hw]; exact hb1
          split at h
          · exact ih _ _ h (hseek _ hb2 hp2)
          · simp at h; exact h ▸ hp2
    · simp at h; exact h ▸ hp

theorem fetchSizes_append (a b : List NativeCall) :
    fetchSizes (a ++ b) = fetchSizes a ++ fetchSizes b := by
  simp [fetchSizes, List.filterMap_append]

/-- A fetch issued with a block size above 32 keeps the block-size invariant. -/
theorem BlockInv_next (c0 : List NativeCall) (s : RenderState)
    (hb : 32 < s.numEventsBlock) (h : BlockInv c0 s) : BlockInv c0 (callEvtNext s).2 := by
  obtain ⟨hmem, t, ht, hall, hpair⟩ := h
  have hS : s.numEventsBlock ∈ [1024, 512, 256, 128, 64] := by
    simp only [List.mem_cons, List.mem_singleton, List.not_mem_nil, or_false] at hmem ⊢
    omega
  have key : ∃ o, (callEvtNext s).2.calls = s.calls ++ [.next s.numEventsBlock o] := by
    obtain ⟨c1, c2⟩ := callEvtNext_calls s
    cases hr : (callEvtNext s).1 with
    | some blk => exact ⟨_, c1 blk hr⟩
    | none => exact ⟨_, c2 hr⟩
  obtain ⟨o, hc⟩ := key
  refine ⟨by rw [callEvtNext_block]; exact hmem, t ++ [.next s.numEventsBlock o], ?_, ?_, ?_⟩
  · rw [hc, ht, List.append_assoc]
  · intro b hbm
    rw [callEvtNext_block]
    rw [fetchSizes_append] at hbm
    rcases List.mem_append.mp hbm with h1 | h1
    · exact hall b h1
    · simp only [fetchSizes, List.filterMap_cons, List.filterMap_nil, List.mem_singleton] at h1
      subst h1
      exact ⟨hS, le_refl _⟩
  · rw [fetchSizes_append, List.pairwise_append]
    refine ⟨hpair, by simp [fetchSizes], ?_⟩
    intro a ha b hbm
    simp only [fetchSizes, List.filterMap_cons, List.filterMap_nil, List.mem_singleton] at hbm
    subst hbm
    exact (hall a ha).2

/-- Halving the block size of a turn entered above 32 and seeking keeps the
block-size invariant. -/
theorem BlockInv_seek (c0 : List NativeCall) (s : RenderState)
    (hb : 32 < s.numEventsBlock) (h : BlockInv c0 s) :
    BlockInv c0 (callEvtSeek { s with numEventsBlock := s.numEventsBlock / 2 }) := by
  obtain ⟨hmem, t, ht, hall, hpair⟩ := h
  obtain ⟨ok, hc⟩ := callEvtSeek_calls { s with numEventsBlock := s.numEventsBlock / 2 }
  dsimp only at hc
  have hfs : fetchSizes (t ++ [NativeCall.seek s.position ok]) = fetchSizes t := by
    rw [fetchSizes_append]; simp [fetchSizes]
  refine ⟨?_, t ++ [.seek s.position ok], ?_, ?_, ?_⟩
  · rw [callEvtSeek_block]
    dsimp only
    simp only [List.mem_cons, List.mem_singleton, List.not_mem_nil, or_false] at hmem ⊢
    omega
  · rw [hc, ht, List.append_assoc]
  · intro b hbm
    rw [hfs] at hbm
    rw [callEvtSeek_block]
    dsimp only
    have := hall b hbm
    exact ⟨this.1, by omega⟩
  · rw [hfs]; exact hpair

theorem callEvtNext_invalid (s : RenderState) (x : NextBehaviour) (rest : List NextBehaviour)
    (hs : s.handle.script = x :: rest) (hx : x.isInvalidBound = true) :
    (callEvtNext s).1 = none ∧ (callEvtNext s).2.lastError = RPC_S_INVALID_BOUND ∧
      (callEvtNext s).2.handle.script = rest ∧
      (callEvtNext s).2.calls =
        s.calls ++ [.next s.numEventsBlock (.failed RPC_S_INVALID_BOUND)] := by
  cases x with
  | deliver k => simp [NextBehaviour.isInvalidBound] at hx
  | invalidBound d => simp [callEvtNext, EvtNext, hs]
  | error c =>
    simp only [NextBehaviour.isInvalidBound, decide_eq_true_eq] at hx
    subst hx
    simp [callEvtNext, EvtNext, hs]

theorem callEvtSeek_script (s : RenderState) :
    (callEvtSeek s).handle.script = s.handle.script := by
  cases hs : s.handle.seeks with
  | nil => simp [callEvtSeek, EvtSeek, hs]
  | cons a rest =>
    cases a with
    | none => simp [callEvtSeek, EvtSeek, hs]
    | some e => simp [callEvtSeek, EvtSeek, hs]

/-- While `EvtNext` keeps failing with the invalid-bound condition, the outer
loop fetches once per block size, halving down from the size it was entered
with, yields nothing, and stops at block size 32. -/
theorem whileBlock_all_invalid (ctx : QueryContext) (m : Int) :
    ∀ (n fuel : Nat) (s : RenderState), s.numEventsBlock = 32 * 2 ^ n → n ≤ fuel →
      n ≤ s.handle.script.length →
      (s.handle.script.take n).all NextBehaviour.isInvalidBound = true →
      ¬ (0 < m ∧ m < s.eventCounter) →
      ∃ s' t, whileBlock ctx m fuel s = some s' ∧ s'.rows = s.rows ∧
        s'.calls = s.calls ++ t ∧ fetchSizes t = halvings n ∧ s'.numEventsBlock = 32 := by
  intro n
  induction n with
  | zero =>
    intro fuel s hb _ _ _ _
    have hb0 : ¬ 32 < s.numEventsBlock := by simp at hb; omega
    refine ⟨s, [], ?_, rfl, by simp, rfl, by simpa using hb⟩
    cases fuel with
    | zero => simp [whileBlock, hb0]
    | succ f => simp [whileBlock, hb0]
  | succ n ih =>
    intro fuel s hb hfuel hlen hall hcap
    obtain ⟨f, rfl⟩ : ∃ f, fuel = f + 1 := ⟨fuel - 1, by omega⟩
    have hb1 : 32 < s.numEventsBlock := by
      rw [hb]
      have : 0 < 2 ^ n := Nat.pow_pos (by decide)
      rw [pow_succ]; omega
    cases hs : s.handle.script with
    | nil => rw [hs] at hlen; simp at hlen
    | cons x rest =>
      rw [hs] at hlen hall
      simp only [List.take_succ_cons, List.all_cons, Bool.and_eq_true] at hall
      obtain ⟨hnone, herr, hscr, hcalls⟩ := callEvtNext_invalid s x rest hs hall.1
      let s3 := callEvtSeek
        { (callEvtNext s).2 with numEventsBlock := (callEvtNext s).2.numEventsBlock / 2 }
      have h3b : s3.numEventsBlock = 32 * 2 ^ n := by
        show (callEvtSeek _).numEventsBlock = _
        rw [callEvtSeek_block]
        show (callEvtNext s).2.numEventsBlock / 2 = _
        rw [callEvtNext_block, hb, pow_succ]
        omega
      have h3s : s3.handle.script = rest := by
        show (callEvtSeek _).handle.script = _
        rw [callEvtSeek_script]
        exact hscr
      have h3c : s3.eventCounter = s.eventCounter := by
        show (callEvtSeek _).eventCounter = _
        rw [callEvtSeek_counter]
        exact callEvtNext_counter s
      have h3r : s3.rows = s.rows := by
        show (callEvtSeek _).rows = _
        rw [callEvtSeek_rows]
        exact callEvtNext_rows s
      obtain ⟨ok, h3k⟩ := callEvtSeek_calls
        { (callEvtNext s).2 with numEventsBlock := (callEvtNext s).2.numEventsBlock / 2 }
      obtain ⟨s', t, hrun, hrows, hcl, hfs, hend⟩ := ih f s3 h3b (by omega)
        (by rw [h3s]; simpa using hlen) (by rw [h3s]; exact hall.2) (by rw [h3c]; exact hcap)
      refine ⟨s', [.next s.numEventsBlock (.failed RPC_S_INVALID_BOUND),
        .seek (callEvtNext s).2.position ok] ++ t, ?_, by rw [hrows, h3r], ?_, ?_, hend⟩
      · simp only [whileBlock]
        rw [if_pos hb1, if_neg hcap]
        rw [hnone, whileRet_none]
        show (if (callEvtNext s).2.lastError = RPC_S_INVALID_BOUND then _ else _) = _
        rw [if_pos herr]
        exact hrun
      · rw [hcl]
        show (callEvtSeek _).calls ++ t = _
        rw [h3k]
        dsimp only
        rw [hcalls]
        simp
      · rw [fetchSizes_append, hfs]
        simp [fetchSizes, halvings, hb]

/-- One plan keeps the block-size invariant: each fetch asks for 1024, 512, 256,
128 or 64 events and never for more than an earlier fetch. -/
theorem renderQueryResults_blocks (ctx : QueryContext) (q : EvtHandle) (w w' : World)
    (h : renderQueryResults ctx q w = some w') :
    ∃ t, w'.calls = w.calls ++ t ∧
      (∀ b ∈ fetchSizes t, b ∈ [1024, 512, 256, 128, 64]) ∧
      (fetchSizes t).Pairwise (fun a b => b ≤ a) := by
  unfold renderQueryResults at h
  dsimp only at h
  split at h
  · simp at h; subst h; exact ⟨[], by simp, by simp [fetchSizes], by simp [fetchSizes]⟩
  · next maxRows _ =>
    split at h
    · simp at h
    · next s hw =>
      simp at h
      subst h
      have hinv : BlockInv w.calls s := by
        refine whileBlock_induct_blk ctx maxRows (BlockInv w.calls) ?_
          (fun s hb hp => BlockInv_next w.calls s hb hp)
          (fun s hb hp => BlockInv_seek w.calls s hb hp) _ _ _ hw ?_
        · intro evs t hp
          obtain ⟨hmem, u, hu, hall, hpair⟩ := hp
          refine ⟨by rw [forEvents_block]; exact hmem, u, by rw [forEvents_calls]; exact hu, ?_,
            hpair⟩
          intro b hb
          rw [forEvents_block]
          exact hall b hb
        · exact ⟨by simp, [], by simp, by simp [fetchSizes], by simp [fetchSizes]⟩
      obtain ⟨_, t, ht, hall, hpair⟩ := hinv
      exact ⟨t, ht, fun b hb => (hall b hb).1, hpair⟩

/-- One plan over a result set whose first five fetches fail with the
invalid-bound condition: five fetches at 1024, 512, 256, 128 and 64, and no row. -/
theorem renderQueryResults_all_invalid (ctx : QueryContext) (q : EvtHandle) (w w' : World)
    (m : Int) (hmax : getMaxRows ctx = some m)
    (h : renderQueryResults ctx q w = some w') (hlen : 5 ≤ q.script.length)
    (hall : (q.script.take 5).all NextBehaviour.isInvalidBound = true) :
    ∃ t, w'.calls = w.calls ++ t ∧ fetchSizes t = [1024, 512, 256, 128, 64] ∧
      w'.rows = w.rows := by
  obtain ⟨s', t, hrun, hrows, hcalls, hfs, _⟩ :=
    whileBlock_all_invalid ctx m 5 1024 (scanStart ctx q w) rfl (by decide) hlen hall
      (by show ¬ (0 < m ∧ m < (0 : Int)); omega)
  unfold renderQueryResults at h
  rw [hmax] at h
  dsimp only at h
  have hrun2 : whileBlock ctx m 1024
      { handle := q, numEventsBlock := 1024, position := 0,
        skip := isSequential ctx && decide (w.seqItem.datetime.length ≠ 0),
        eventCounter := 0, seqItem := w.seqItem, lastError := w.lastError, rows := w.rows,
        db := w.db, calls := w.calls } = some s' := hrun
  rw [hrun2] at h
  simp only [Option.some.injEq] at h
  subst h
  exact ⟨t, hcalls, by rw [hfs]; rfl, hrows⟩

/-- C14: the fetch loop of `renderQueryResults` terminates on every result set:
a final state is always reached, with every `EvtNext` call issued with a block
size among 1024, 512, 256, 128, 64 (so above the floor 32) and never with a size
larger than that of an earlier call; and when the result set answers the fetches
with the invalid-bound condition, the loop ends after exactly five `EvtNext`
calls, at 1024, 512, 256, 128 and 64, without having emitted a row. -/
theorem C14_fetch_loop_terminates (ctx : QueryContext) (q : EvtHandle) (w : World)
    (m : Int) (hmax : getMaxRows ctx = some m) :
    ∃ w' t, renderQueryResults ctx q w = some w' ∧ w'.calls = w.calls ++ t ∧
      (∀ b ∈ fetchSizes t, b ∈ [1024, 512, 256, 128, 64] ∧ 32 < b) ∧
      (fetchSizes t).Pairwise (fun a b => b ≤ a) ∧
      (5 ≤ q.script.length → (q.script.take 5).all NextBehaviour.isInvalidBound = true →
        fetchSizes t = [1024, 512, 256, 128, 64] ∧ (fetchSizes t).length = 5 ∧
          w'.rows = w.rows) := by
  obtain ⟨w', h⟩ := renderQueryResults_total ctx q w
  obtain ⟨t, ht, hmem, hpair⟩ := renderQueryResults_blocks ctx q w w' h
  refine ⟨w', t, h, ht, ?_, hpair, ?_⟩
  · intro b hb
    have hm := hmem b hb
    refine ⟨hm, ?_⟩
    simp only [List.mem_cons, List.mem_singleton, List.not_mem_nil, or_false] at hm
    omega
  · intro hlen hall
    obtain ⟨t2, ht2, hfs, hrows⟩ := renderQueryResults_all_invalid ctx q w w' m hmax h hlen hall
    have : t = t2 := List.append_cancel_left (ht.symm.trans ht2)
    subst this
    exact ⟨hfs, by rw [hfs]; rfl, hrows⟩

/-- A result set of three events whose five fetches all fail with the
invalid-bound condition: the plan ends after fetches at 1024, 512, 256, 128 and
64 and yields no row. -/
theorem C14_fetch_loop_terminates_witness :
    getMaxRows ctxOneChannel = some (-1) ∧
      ∃ w' t, renderQueryResults ctxOneChannel handleAlwaysInvalidBound emptyWorld = some w' ∧
        w'.calls = t ∧ fetchSizes t = [1024, 512, 256, 128, 64] ∧ w'.rows = [] := by
  refine ⟨by decide, ?_⟩
  obtain ⟨w', t, h1, h2, _, _, h5⟩ :=
    C14_fetch_loop_terminates ctxOneChannel handleAlwaysInvalidBound emptyWorld (-1) (by decide)
  obtain ⟨h6, _, h7⟩ := h5 (by decide) (by decide)
  exact ⟨w', t, h1, by simpa [emptyWorld] using h2, h6, by simpa [emptyWorld] using h7⟩

/-- The run of the witness, evaluated: five fetches, each followed by a seek to
position 0, and no row. -/
theorem all_invalid_bound_run :
    (renderQueryResults ctxOneChannel handleAlwaysInvalidBound emptyWorld).map
        (fun w => (fetchSizes w.calls, w.rows.length)) =
      some ([1024, 512, 256, 128, 64], 0) := by
  decide

end Osquery
